import Mathlib

/-!
# ssh_proxy1: identity parsing, credential check, session handler and relay

A shallow embedding of `internal/proxy/handler.go`, `internal/proxy/server.go`
and `internal/auth/auth.go`.

Go strings and byte slices are immutable/mutable byte sequences; both are
modelled as lists of byte values.  `str` turns an ASCII literal of the source
into that representation.
-/

set_option linter.unusedVariables false

namespace SshProxy

deriving instance DecidableEq for Except

/-- A Go `string` / `[]byte`: a sequence of byte values. -/
abbrev GoString := List Nat

/-- The bytes of an ASCII string literal of the source. -/
def str (s : String) : GoString := s.data.map Char.toNat

/-- The separator byte of `"|"`. -/
def sepByte : Nat := 124

/-! ## `strings.SplitN` with a one-byte separator (Go standard library) -/

/-- Go `strings.IndexByte(s, c)`: position of the first `c` in `s`, `none` for -1. -/
def IndexByte : GoString → Nat → Option Nat
  | [], _ => none
  | b :: rest, c => if b = c then some 0 else (IndexByte rest c).map (· + 1)

/-- The loop of `strings.genSplit`: at most `k` more cuts, then the rest of `s`. -/
def genSplitLoop (c : Nat) : Nat → GoString → List GoString
  | 0, s => [s]
  | k + 1, s =>
    match IndexByte s c with
    | none => [s]
    | some m => s.take m :: genSplitLoop c k (s.drop (m + 1))

/-- Go `strings.SplitN(s, sep, n)` for a separator `sep` of the single byte `c`:
`n = 0` gives nil, `n < 0` means all pieces, and `n` is capped at `len(s)+1`. -/
def SplitN (s : GoString) (c : Nat) (n : Int) : List GoString :=
  if n = 0 then []
  else
    let n1 : Nat := if n < 0 then s.count c + 1 else n.toNat
    let n2 : Nat := if n1 > s.length + 1 then s.length + 1 else n1
    genSplitLoop c (n2 - 1) s

/-- Go `strings.Split(s, sep)`, which is `genSplit(s, sep, 0, -1)`. -/
def Split (s : GoString) (c : Nat) : List GoString := SplitN s c (-1)

/-! ## `parseUser` (handler.go, lines 26-32) -/

/-- The text of the error `parseUser` returns. -/
def parseUserErr : GoString := str "invalid username format, expected user|host:port"

/-- Function `parseUser` of handler.go: split the identity at the first `|`. -/
def parseUser (raw : GoString) : Except GoString (GoString × GoString) :=
  let parts := SplitN raw sepByte 2
  if parts.length ≠ 2 then .error parseUserErr
  else .ok (parts.getD 0 [], parts.getD 1 [])

/-! ## `auth.Service` (auth.go) -/

/-- Type `Service` of auth.go: the `users` map, as its key/value pairs. -/
structure Service where
  users : List (GoString × GoString)

/-- Function `auth.New`: the store with the two built-in accounts. -/
def New : Service :=
  { users := [(str "alice", str "alice123"), (str "bob", str "bob123")] }

/-- Method `Service.Verify`: `pw, ok := s.users[user]; return ok && pw == password`. -/
def Service.Verify (s : Service) (user password : GoString) : Bool :=
  match s.users.lookup user with
  | some pw => pw == password
  | none => false

/-! ## The handler's collaborators

The packages `ws`, `rbac`, `connector`, `recorder`, `util` and `ssh` are outside
the three files embedded here; what the handler asks of them is a parameter. -/

/-- An agent of `ws.Manager`: `CreateSession(sid, target)` gives the `(recv, send)`
pair of the new stream, or an error text. -/
structure Agent where
  CreateSession : GoString → GoString → Except GoString (Nat × Nat)

/-- Type `ws.Manager` as the handler uses it: `GetAgent(id)` is `(agent, ok)`. -/
structure Manager where
  GetAgent : GoString → Option Agent

/-- Type `rbac.RBAC` as the handler uses it. -/
structure RBAC where
  Allows : GoString → GoString → Bool

/-- Type `SSHDependencies` of handler.go; a nil `RBAC` pointer is `none`. -/
structure SSHDependencies where
  AgentMgr : Manager
  RecorderDir : GoString
  RBAC : Option RBAC

/-- One return of a `Read(buf)` call: the bytes `buf[:n]` and the error (nil is `none`). -/
structure ReadResult where
  data : GoString
  err : Option GoString
  deriving DecidableEq

/-- What one run of the handler gets from outside. -/
structure World where
  /-- The error of `newChan.Accept()`. -/
  acceptErr : Option GoString
  /-- The value of `sshConn.User()`. -/
  User : GoString
  /-- The value of `sshConn.RemoteAddr().String()`. -/
  RemoteAddr : GoString
  /-- The value of `time.Now().Format(time.RFC3339)`. -/
  Now : GoString
  /-- The result of the k-th call of `util.NewSessionID()`. -/
  NewSessionID : Nat → GoString
  /-- The result of `connector.DirectDial(target)`: a connection or an error text. -/
  DirectDial : GoString → Except GoString Nat
  /-- The successive results of `backend.Read`. -/
  backendReads : List ReadResult
  /-- The successive results of `ch.Read`. -/
  channelReads : List ReadResult

/-- The two ends the relay copies between: the SSH channel `ch` and `backend`. -/
inductive Stream
  | channel
  | backend
  deriving DecidableEq

/-- The value of the variable `backend`. -/
inductive Backend
  /-- The adapter `connector.NewAgentConnAdapter(recv, send)`. -/
  | agentConn (recv send : Nat)
  /-- The connection `conn` of `connector.DirectDial`. -/
  | directConn (conn : Nat)
  deriving DecidableEq

/-- The calls the handler makes on its collaborators, in the order it makes them. -/
inductive Event
  /-- Call `newChan.Accept()`. -/
  | accept
  /-- Call `rbac.Allows(user, target)`. -/
  | allows (user target : GoString)
  /-- Call `AgentMgr.GetAgent(target)`. -/
  | getAgent (target : GoString)
  /-- Call `util.NewSessionID()`. -/
  | newSessionID
  /-- Call `agent.CreateSession(sid, target)`. -/
  | createSession (sid target : GoString)
  /-- Call `connector.DirectDial(target)`. -/
  | directDial (target : GoString)
  /-- Call `recorder.NewSessionWriter(dir, sessionID, meta)`, with the four entries of `meta`. -/
  | newSessionWriter (dir sessionID user target remote start : GoString)
  /-- Statement `go ...` starting the pump with tag `dir`. -/
  | spawn (dir : GoString)
  /-- Call `src.Read(buf)`. -/
  | read (src : Stream)
  /-- Call `dst.Write(b)`. -/
  | write (dst : Stream) (b : GoString)
  /-- Call `rec.WriteBytes(dir, b)` (handler.go) or `rec.Write(dir, b)` (server.go). -/
  | record (dir : GoString) (b : GoString)
  /-- Send on `done` by the pump with tag `dir`. -/
  | send (dir : GoString)
  /-- Receive `<-done` by the handler. -/
  | recv
  /-- Call `Close()` of the channel or the backend. -/
  | close (s : Stream)
  /-- Call `rec.Close()`. -/
  | recClose
  deriving DecidableEq

/-- The `return` statements of `handleSession` before the relay (handler.go). -/
inductive Exit
  /-- Line 81: `Accept` failed. -/
  | acceptFailed
  /-- Line 88: the identity did not parse. -/
  | parseFailed
  /-- Line 93: the policy engine denied the pair. -/
  | denied
  /-- Line 110: the direct dial failed. -/
  | dialFailed
  deriving DecidableEq

/-- How lines 79-126 of `handleSession` end: at a `return`, or at the relay with
`backend` set and the recorder asked for. -/
inductive Outcome
  | returned (at_ : Exit) (trace : List Event)
  | relay (trace : List Event) (backend : Backend) (sessionID : GoString)
  deriving DecidableEq

/-- The calls made so far. -/
def Outcome.trace : Outcome → List Event
  | .returned _ t => t
  | .relay t _ _ => t

/-- The backend the relay runs over, when the relay is reached. -/
def Outcome.backend : Outcome → Option Backend
  | .returned _ _ => none
  | .relay _ b _ => some b

/-- The `return` taken before the relay, when one is. -/
def Outcome.exit : Outcome → Option Exit
  | .returned e _ => some e
  | .relay _ _ _ => none

/-! ## The pump loops -/

/-- Function `pipe` of server.go: read, forward and record a non-empty chunk,
stop at the first error, then signal `done`. A `Read` beyond the given results
never returns. -/
def pipe (src dst : Stream) (dir : GoString) : List ReadResult → List Event
  | [] => [.read src]
  | r :: rs =>
    Event.read src ::
      ((if r.data.length > 0 then [Event.write dst r.data, Event.record dir r.data] else []) ++
        (match r.err with
         | some _ => [Event.send dir]
         | none => pipe src dst dir rs))

/-- The first goroutine of `handleSession` (handler.go, lines 128-141):
backend to channel, tag `stdout`. -/
def pumpStdout : List ReadResult → List Event
  | [] => [.read .backend]
  | r :: rs =>
    Event.read .backend ::
      ((if r.data.length > 0 then
          [Event.write .channel r.data, Event.record (str "stdout") r.data]
        else []) ++
        (match r.err with
         | some _ => [Event.send (str "stdout")]
         | none => pumpStdout rs))

/-- The second goroutine of `handleSession` (handler.go, lines 143-156):
channel to backend, tag `stdin`. -/
def pumpStdin : List ReadResult → List Event
  | [] => [.read .channel]
  | r :: rs =>
    Event.read .channel ::
      ((if r.data.length > 0 then
          [Event.write .backend r.data, Event.record (str "stdin") r.data]
        else []) ++
        (match r.err with
         | some _ => [Event.send (str "stdin")]
         | none => pumpStdin rs))

/-! ## The relay: the handler goroutine and its two pumps, interleaved -/

/-- The goroutines of one session. -/
inductive Tid
  | main
  | out
  | inp
  deriving DecidableEq

/-- The code the three goroutines run: the calls of each pump in program order,
and what the handler does once both `<-done` have returned. -/
structure Programs where
  out : List Event
  inp : List Event
  teardown : List Event

/-- Capacity of the channel `done`: `make(chan ..., 2)`. -/
def doneCap : Nat := 2

/-- State of the relay. `pc` counts the handler's steps: 0 and 1 are the two
`go` statements, 2 and 3 the two `<-done`, then the teardown. A pump that is not
started is `none`, otherwise the calls it has still to make. `done` is the
number of values buffered in the channel. -/
structure Relay where
  pc : Nat
  out : Option (List Event)
  inp : Option (List Event)
  done : Nat
  trace : List Event
  deriving DecidableEq

/-- One step of the handler goroutine, `none` when it is blocked or has returned. -/
def mainStep (P : Programs) (s : Relay) : Option Relay :=
  match s.pc with
  | 0 => some { s with pc := 1, out := some P.out, trace := s.trace ++ [.spawn (str "stdout")] }
  | 1 => some { s with pc := 2, inp := some P.inp, trace := s.trace ++ [.spawn (str "stdin")] }
  | 2 =>
    if s.done > 0 then some { s with pc := 3, done := s.done - 1, trace := s.trace ++ [.recv] }
    else none
  | 3 =>
    if s.done > 0 then some { s with pc := 4, done := s.done - 1, trace := s.trace ++ [.recv] }
    else none
  | n + 4 =>
    match P.teardown[n]? with
    | some e => some { s with pc := n + 5, trace := s.trace ++ [e] }
    | none => none

/-- Whether an event is a send on `done`. -/
def Event.isSend : Event → Bool
  | .send _ => true
  | _ => false

/-- One step of a pump with the calls `prog` still to make: the next call is
made; a send waits while the channel is full. Gives the rest, the new channel
count and the event. -/
def pumpStep (prog : Option (List Event)) (done : Nat) : Option (List Event × Nat × Event) :=
  match prog with
  | some (e :: es) =>
    if e.isSend then
      if done < doneCap then some (es, done + 1, e) else none
    else some (es, done, e)
  | _ => none

/-- One step of goroutine `t`, `none` when it cannot move. -/
def step (P : Programs) (t : Tid) (s : Relay) : Option Relay :=
  match t with
  | .main => mainStep P s
  | .out =>
    match pumpStep s.out s.done with
    | some (es, d, e) => some { s with out := some es, done := d, trace := s.trace ++ [e] }
    | none => none
  | .inp =>
    match pumpStep s.inp s.done with
    | some (es, d, e) => some { s with inp := some es, done := d, trace := s.trace ++ [e] }
    | none => none

/-- Run under a schedule: each entry lets one goroutine move if it can. -/
def run (P : Programs) : List Tid → Relay → Relay
  | [], s => s
  | t :: ts, s => run P ts ((step P t s).getD s)

/-- The relay before the first `go` statement; `trace` holds the calls of the relay only. -/
def Relay.init : Relay :=
  { pc := 0, out := none, inp := none, done := 0, trace := [] }

/-- Whether the handler has returned. -/
def Relay.returned (P : Programs) (s : Relay) : Bool := s.pc == 4 + P.teardown.length

/-! ## `handleSession` (handler.go, lines 78-164) -/

/-- The programs of the relay of handler.go: the two inline goroutines, and after
the two receives `backend.Close()` (line 162), then the deferred `rec.Close()`
and `ch.Close()`. -/
def handlerPrograms (w : World) : Programs :=
  { out := pumpStdout w.backendReads
    inp := pumpStdin w.channelReads
    teardown := [.close .backend, .recClose, .close .channel] }

/-- Lines 79-126 of `handleSession`: accept, parse, authorize, resolve the
backend, create the recorder. -/
def handleSessionSetup (w : World) (deps : SSHDependencies) : Outcome :=
  match w.acceptErr with
  | some _ => .returned .acceptFailed [.accept]
  | none =>
    let t0 : List Event := [.accept]
    match parseUser w.User with
    | .error e =>
      .returned .parseFailed (t0 ++ [.write .channel (e ++ str "\n"), .close .channel])
    | .ok (user, target) =>
      let (denied, t1) : Bool × List Event :=
        match deps.RBAC with
        | none => (false, t0)
        | some r => (!(r.Allows user target), t0 ++ [.allows user target])
      if denied then
        .returned .denied (t1 ++ [.write .channel (str "ACCESS DENIED\n"), .close .channel])
      else
        let (backend, k, t2) : Option Backend × Nat × List Event :=
          match deps.AgentMgr.GetAgent target with
          | none => (none, 0, t1 ++ [.getAgent target])
          | some agent =>
            let sid := w.NewSessionID 0
            let t := t1 ++ [.getAgent target, .newSessionID, .createSession sid target]
            match agent.CreateSession sid target with
            | .ok (recv, send) => (some (.agentConn recv send), 1, t)
            | .error _ => (none, 1, t)
        let dialed : Except GoString Backend × List Event :=
          match backend with
          | some b => (.ok b, t2)
          | none =>
            match w.DirectDial target with
            | .error e => (.error e, t2 ++ [.directDial target])
            | .ok conn => (.ok (.directConn conn), t2 ++ [.directDial target])
        match dialed with
        | (.error e, t3) =>
          .returned .dialFailed (t3 ++ [.write .channel e, .close .channel])
        | (.ok b, t3) =>
          let sessionID := w.NewSessionID k
          .relay
            (t3 ++ [.newSessionID,
              .newSessionWriter deps.RecorderDir sessionID user target w.RemoteAddr w.Now])
            b sessionID

/-- Function `handleSession` of handler.go under a schedule of its goroutines:
the calls made, in order. -/
def handleSession (w : World) (deps : SSHDependencies) (sched : List Tid) : List Event :=
  match handleSessionSetup w deps with
  | .returned _ t => t
  | .relay t _ _ => t ++ (run (handlerPrograms w) sched Relay.init).trace

/-! ## The relay of `handleSession` in server.go (lines 133-140) -/

/-- The programs of the relay of server.go: two `pipe` goroutines, and after the
two receives the deferred calls in reverse order of their `defer` (lines 131, 127
and 110): `rec.Close()`, `backend.Close()`, `ch.Close()`. -/
def Server.programs (backendReads channelReads : List ReadResult) : Programs :=
  { out := pipe .backend .channel (str "stdout") backendReads
    inp := pipe .channel .backend (str "stdin") channelReads
    teardown := [.recClose, .close .backend, .close .channel] }

/-! ## Observations on a trace -/

/-- The chunks recorded under the tag `dir`, in order. -/
def recorded (dir : GoString) : List Event → List GoString
  | [] => []
  | .record d b :: t => if d = dir then b :: recorded dir t else recorded dir t
  | _ :: t => recorded dir t

/-- The chunks handed to `dst.Write`, in order. -/
def delivered (dst : Stream) : List Event → List GoString
  | [] => []
  | .write d b :: t => if d = dst then b :: delivered dst t else delivered dst t
  | _ :: t => delivered dst t

/-- The read results up to and including the first one with an error. -/
def throughFirstErr : List ReadResult → List ReadResult
  | [] => []
  | r :: rs => r :: (match r.err with
    | some _ => []
    | none => throughFirstErr rs)

/-- The non-empty chunks of a list of read results. -/
def nonEmptyChunks (rs : List ReadResult) : List GoString :=
  (rs.map (·.data)).filter (fun b => b.length > 0)

/-! ## Kinds of calls -/

/-- A call on the policy engine. -/
def Event.isPolicyCall : Event → Bool
  | .allows _ _ => true
  | _ => false

/-- An agent lookup or a `CreateSession` on an agent. -/
def Event.isAgentCall : Event → Bool
  | .getAgent _ => true
  | .createSession _ _ => true
  | _ => false

/-- A call of `connector.DirectDial`. -/
def Event.isDial : Event → Bool
  | .directDial _ => true
  | _ => false

/-- A call of `recorder.NewSessionWriter`. -/
def Event.isRecorderCreate : Event → Bool
  | .newSessionWriter _ _ _ _ _ _ => true
  | _ => false

/-- A `go` statement starting a pump. -/
def Event.isPumpStart : Event → Bool
  | .spawn _ => true
  | _ => false

/-- A call a pump with tag `dir` makes: a read, a write, a record, its send on `done`. -/
def Event.isPumpCall (dir : GoString) : Event → Bool
  | .read _ => true
  | .write _ _ => true
  | .record _ _ => true
  | .send d => d == dir
  | _ => false

/-- A call only a running pump makes: a read, a record, a send on `done`. -/
def Event.isPumpOnly : Event → Bool
  | .read _ => true
  | .record _ _ => true
  | .send _ => true
  | _ => false

/-- A `Close` call: of a stream or of the recorder. -/
def Event.isTeardown : Event → Bool
  | .close _ => true
  | .recClose => true
  | _ => false

/-- A call made during the relay: by a pump, or a `go`, `<-done` or `Close` of the handler. -/
def Event.isRelayCall : Event → Bool
  | .read _ => true
  | .write _ _ => true
  | .record _ _ => true
  | .send _ => true
  | .spawn _ => true
  | .recv => true
  | .close _ => true
  | .recClose => true
  | _ => false

/-- The send on `done` of the backend-to-channel pump. -/
def sendOut : Event := .send (str "stdout")

/-- The send on `done` of the channel-to-backend pump. -/
def sendIn : Event := .send (str "stdin")

/-- What the relay needs of its programs: each pump makes pump calls only and
sends on `done` at most once, and the teardown is made of `Close` calls. -/
structure Programs.WF (P : Programs) : Prop where
  out_calls : ∀ e ∈ P.out, e.isPumpCall (str "stdout") = true
  inp_calls : ∀ e ∈ P.inp, e.isPumpCall (str "stdin") = true
  out_once : P.out.count sendOut ≤ 1
  inp_once : P.inp.count sendIn ≤ 1
  teardown_calls : ∀ e ∈ P.teardown, e.isTeardown = true

/-- In the trace `t`, every `Close` call comes after both pumps' sends on `done`
and after the handler's two receives. -/
def TeardownAfterSignals (t : List Event) : Prop :=
  ∀ a e b, t = a ++ e :: b → e.isTeardown = true →
    sendOut ∈ a ∧ sendIn ∈ a ∧ a.count Event.recv = 2

/-- The invariant of the relay. -/
structure Inv (P : Programs) (s : Relay) : Prop where
  out_none : s.pc = 0 → s.out = none
  inp_none : s.pc ≤ 1 → s.inp = none
  out_idle : s.out = none → s.trace.count sendOut = 0
  inp_idle : s.inp = none → s.trace.count sendIn = 0
  out_cnt : s.trace.count sendOut + (s.out.getD []).count sendOut ≤ 1
  inp_cnt : s.trace.count sendIn + (s.inp.getD []).count sendIn ≤ 1
  out_calls : ∀ e ∈ s.out.getD [], e.isPumpCall (str "stdout") = true
  inp_calls : ∀ e ∈ s.inp.getD [], e.isPumpCall (str "stdin") = true
  recvs : s.trace.count Event.recv = min (s.pc - 2) 2
  chan : s.done + s.trace.count Event.recv = s.trace.count sendOut + s.trace.count sendIn
  tear : s.trace.filter Event.isTeardown = P.teardown.take (s.pc - 4)
  pc_le : s.pc ≤ 4 + P.teardown.length
  calls : ∀ e ∈ s.trace, e.isRelayCall = true
  order : TeardownAfterSignals s.trace

/-- A call of the pump that copies from `src` to `dst` under the tag `dir`. -/
def Event.isDirCall (src dst : Stream) (dir : GoString) : Event → Bool
  | .read s => s == src
  | .write d _ => d == dst
  | .record d _ => d == dir
  | .send d => d == dir
  | _ => false

/-- The calls of the backend-to-channel pump. -/
def Event.isOutCall : Event → Bool := Event.isDirCall .backend .channel (str "stdout")

/-- The calls of the channel-to-backend pump. -/
def Event.isInCall : Event → Bool := Event.isDirCall .channel .backend (str "stdin")

/-- The two pumps copy in opposite directions under their own tags, and a pump
makes no call after its send on `done`. -/
structure Programs.Directed (P : Programs) : Prop where
  out_dir : ∀ e ∈ P.out, e.isOutCall = true
  inp_dir : ∀ e ∈ P.inp, e.isInCall = true
  out_last : ∀ pre l, P.out = pre ++ l → sendOut ∈ pre → l = []
  inp_last : ∀ pre l, P.inp = pre ++ l → sendIn ∈ pre → l = []

/-- The calls of kind `f` in `trace` are the part of `prog` made so far, `rest`
being what is still to make (`none` before the pump is started). -/
def Emitted (prog : List Event) (rest : Option (List Event)) (f : Event → Bool)
    (trace : List Event) : Prop :=
  match rest with
  | none => trace.filter f = []
  | some l => trace.filter f ++ l = prog

/-- Program order in the relay: the trace restricted to a pump's calls is what the
pump has made of its program. -/
structure ProgramOrder (P : Programs) (s : Relay) : Prop where
  out_order : Emitted P.out s.out Event.isOutCall s.trace
  inp_order : Emitted P.inp s.inp Event.isInCall s.trace

/-! ## Example sessions -/

/-- A session of the peer `user`: the dial to `127.0.0.1:9999` is refused, every
other dial connects; the backend sends two chunks and ends, the client sends one
chunk and ends. -/
def exampleWorld (user : GoString) : World :=
  { acceptErr := none
    User := user
    RemoteAddr := str "192.0.2.7:40000"
    Now := str "2024-05-01T10:00:00Z"
    NewSessionID := fun k => str "session-" ++ [48 + k]
    DirectDial := fun target =>
      if target = str "127.0.0.1:9999" then
        .error (str "dial tcp 127.0.0.1:9999: connect: connection refused")
      else .ok 1
    backendReads := [⟨str "welcome\n", none⟩, ⟨str "bye\n", some (str "EOF")⟩]
    channelReads := [⟨str "ls\n", none⟩, ⟨[], some (str "EOF")⟩] }

/-- Dependencies with no agent registered and the given policy engine. -/
def noAgentDeps (rbac : Option RBAC) : SSHDependencies :=
  { AgentMgr := ⟨fun _ => none⟩, RecorderDir := str "sessions", RBAC := rbac }

/-- A policy engine that denies every pair. -/
def denyAll : RBAC := ⟨fun _ _ => false⟩

/-- A policy engine that allows every pair. -/
def allowAll : RBAC := ⟨fun _ _ => true⟩

/-- Dependencies with an agent registered for `internal-host:22` whose
`CreateSession` succeeds, and the allow-all policy engine. -/
def agentDeps : SSHDependencies :=
  { AgentMgr := ⟨fun id =>
      if id = str "internal-host:22" then some ⟨fun _ _ => .ok (10, 11)⟩ else none⟩
    RecorderDir := str "sessions"
    RBAC := some allowAll }

/-- The schedule that starts both pumps, runs the `stdout` pump to its end, then
the `stdin` pump, then the handler. -/
def pumpsThenHandler (P : Programs) : List Tid :=
  [.main, .main] ++ List.replicate P.out.length .out ++ List.replicate P.inp.length .inp ++
    List.replicate 5 .main

end SshProxy

namespace SshProxy

/-! ## Facts about the string helpers -/

theorem str_sep : str "|" = [sepByte] := by decide

theorem IndexByte_eq_none {s : GoString} {c : Nat} (h : c ∉ s) : IndexByte s c = none := by
  induction s with
  | nil => rfl
  | cons b rest ih =>
    have hb : b ≠ c := fun e => h (by simp [e])
    have hr : c ∉ rest := fun e => h (by simp [e])
    simp [IndexByte, hb, ih hr]

theorem IndexByte_append_sep {u : GoString} {c : Nat} (t : GoString) (h : c ∉ u) :
    IndexByte (u ++ c :: t) c = some u.length := by
  induction u with
  | nil => simp [IndexByte]
  | cons b rest ih =>
    have hb : b ≠ c := fun e => h (by simp [e])
    have hr : c ∉ rest := fun e => h (by simp [e])
    simp [IndexByte, hb, ih hr]

theorem IndexByte_some_of_mem {s : GoString} {c : Nat} (h : c ∈ s) :
    ∃ m, IndexByte s c = some m := by
  induction s with
  | nil => simp at h
  | cons b rest ih =>
    by_cases hb : b = c
    · exact ⟨0, by simp [IndexByte, hb]⟩
    · have hr : c ∈ rest := by
        rcases List.mem_cons.mp h with e | e
        · exact absurd e.symm hb
        · exact e
      obtain ⟨m, hm⟩ := ih hr
      exact ⟨m + 1, by simp [IndexByte, hb, hm]⟩

theorem SplitN_two (raw : GoString) (c : Nat) :
    SplitN raw c 2 = match IndexByte raw c with
      | none => [raw]
      | some m => [raw.take m, raw.drop (m + 1)] := by
  cases raw with
  | nil => simp [SplitN, genSplitLoop, IndexByte]
  | cons b rest =>
    have h : ¬ (2 > (b :: rest).length + 1) := by simp
    simp only [SplitN, h]
    simp [genSplitLoop]

theorem parseUser_no_sep {raw : GoString} (h : sepByte ∉ raw) :
    parseUser raw = .error parseUserErr := by
  simp [parseUser, SplitN_two, IndexByte_eq_none h]

theorem parseUser_split (u t : GoString) (hu : sepByte ∉ u) :
    parseUser (u ++ sepByte :: t) = .ok (u, t) := by
  simp [parseUser, SplitN_two, IndexByte_append_sep t hu]

/-! ## Claims about `parseUser` -/

/-- C1: for an identity `u|t` with `u` and `t` non-empty and free of `|`,
`parseUser` succeeds and returns `user = u`, `target = t`. -/
theorem parseUser_one_separator (u t : GoString) (hu : u ≠ []) (ht : t ≠ [])
    (hus : sepByte ∉ u) (hts : sepByte ∉ t) :
    parseUser (u ++ str "|" ++ t) = .ok (u, t) := by
  rw [str_sep, List.append_assoc]
  exact parseUser_split u t hus

/-- C1 at the identity `bob|internal-host:22`. -/
theorem parseUser_one_separator_witness :
    parseUser (str "bob" ++ str "|" ++ str "internal-host:22")
      = .ok (str "bob", str "internal-host:22") :=
  parseUser_one_separator (str "bob") (str "internal-host:22")
    (by decide) (by decide) (by decide) (by decide)

/-- C2 as stated fails: the identity `alice|` has an empty target and is accepted. -/
theorem parseUser_accepts_empty_target :
    parseUser (str "alice|") = .ok (str "alice", str "") := by decide

/-- C2, amended: an identity without any `|` is rejected with the format error,
and an identity `u|t` with no further `|` is accepted as `(u, t)` also when
`u` or `t` is empty. -/
theorem parseUser_rejects_only_missing_separator (raw u t : GoString) :
    (sepByte ∉ raw → parseUser raw = .error parseUserErr) ∧
    (sepByte ∉ u → sepByte ∉ t → parseUser (u ++ str "|" ++ t) = .ok (u, t)) := by
  refine ⟨parseUser_no_sep, fun hu _ => ?_⟩
  rw [str_sep, List.append_assoc]
  exact parseUser_split u t hu

/-- C2 amended, at `nobody`, and at `|host:22` with its empty user. -/
theorem parseUser_rejects_only_missing_separator_witness :
    parseUser (str "nobody") = .error parseUserErr ∧
    parseUser (str "" ++ str "|" ++ str "host:22") = .ok (str "", str "host:22") :=
  ⟨(parseUser_rejects_only_missing_separator (str "nobody") [] []).1 (by decide),
   (parseUser_rejects_only_missing_separator [] (str "") (str "host:22")).2
     (by decide) (by decide)⟩

/-! ## Claims about `auth.Service` -/

/-- C10: for the store of `auth.New`, `Verify(user, password)` is true exactly
for `("alice", "alice123")` and `("bob", "bob123")`; no user is accepted with
the empty password, and an identity `u|hostport` is rejected with every password. -/
theorem Verify_New_iff (user password u hostport : GoString) :
    (New.Verify user password = true ↔
      (user = str "alice" ∧ password = str "alice123") ∨
      (user = str "bob" ∧ password = str "bob123")) ∧
    (New.Verify user password = true ↔
      ∃ pw, (user, pw) ∈ New.users ∧ pw = password) ∧
    New.Verify user (str "") = false ∧
    New.Verify (u ++ str "|" ++ hostport) password = false := by
  have key : ∀ us pw : GoString, New.Verify us pw = true ↔
      (us = str "alice" ∧ pw = str "alice123") ∨ (us = str "bob" ∧ pw = str "bob123") := by
    intro us pw
    simp only [Service.Verify, New, List.lookup]
    have hab : ¬ (str "alice" = str "bob") := by decide
    have hba : ¬ (str "bob" = str "alice") := by decide
    by_cases h1 : us = str "alice"
    · subst h1
      simp [hab]
      exact eq_comm
    · by_cases h2 : us = str "bob"
      · subst h2
        have : (str "bob" == str "alice") = false := by decide
        simp [this, hba]
        exact eq_comm
      · have e1 : (us == str "alice") = false := by simpa using h1
        have e2 : (us == str "bob") = false := by simpa using h2
        simp [e1, e2, h1, h2]
  refine ⟨key user password, ?_, ?_, ?_⟩
  · rw [key]
    simp [New]
  · cases hv : New.Verify user (str "") with
    | false => rfl
    | true =>
      rcases (key _ _).mp hv with ⟨_, h⟩ | ⟨_, h⟩ <;> exact absurd h (by decide)
  · cases hv : New.Verify (u ++ str "|" ++ hostport) password with
    | false => rfl
    | true =>
      have hm : sepByte ∈ u ++ str "|" ++ hostport := by simp [str_sep]
      rcases (key _ _).mp hv with ⟨h, _⟩ | ⟨h, _⟩
      · rw [h] at hm
        exact absurd hm (by decide)
      · rw [h] at hm
        exact absurd hm (by decide)

/-! ## The relay invariant -/

theorem sendOut_ne_sendIn : sendOut ≠ sendIn := by decide

theorem snoc_eq_split {α : Type} {t a b : List α} {x e : α} (h : t ++ [x] = a ++ e :: b) :
    (b = [] ∧ a = t ∧ e = x) ∨ ∃ b', b = b' ++ [x] ∧ t = a ++ e :: b' := by
  rcases List.eq_nil_or_concat b with hb | ⟨b', y, hb⟩
  · subst hb
    have h2 : t ++ [x] = a ++ [e] := h
    have := List.append_inj' h2 rfl
    exact Or.inl ⟨rfl, this.1.symm, by simpa using this.2.symm⟩
  · subst hb
    have h2 : t ++ [x] = (a ++ e :: b') ++ [y] := by simpa using h
    have := List.append_inj' h2 rfl
    refine Or.inr ⟨b', ?_, this.1⟩
    have hxy : x = y := by simpa using this.2
    simp [hxy]

theorem count_snoc (a x : Event) (t : List Event) :
    (t ++ [x]).count a = t.count a + if x = a then 1 else 0 := by
  simp [List.count_append, List.count_singleton]

theorem pumpStep_some {prog : Option (List Event)} {done d : Nat} {es : List Event} {e : Event}
    (h : pumpStep prog done = some (es, d, e)) :
    prog = some (e :: es) ∧
      ((e.isSend = true ∧ done < doneCap ∧ d = done + 1) ∨ (e.isSend = false ∧ d = done)) := by
  unfold pumpStep at h
  split at h
  · rename_i e' es'
    by_cases hs : e'.isSend = true
    · by_cases hd : done < doneCap
      · simp [hs, hd] at h
        obtain ⟨h1, h2, h3⟩ := h
        subst h1 h2 h3
        exact ⟨rfl, Or.inl ⟨hs, hd, rfl⟩⟩
      · simp [hs, hd] at h
    · simp [hs] at h
      obtain ⟨h1, h2, h3⟩ := h
      subst h1 h2 h3
      exact ⟨rfl, Or.inr ⟨by simpa using hs, rfl⟩⟩
  · simp at h

theorem pumpCall_send {dir : GoString} {e : Event} (h1 : e.isPumpCall dir = true)
    (h2 : e.isSend = true) : e = .send dir := by
  cases e <;> simp_all [Event.isPumpCall, Event.isSend]

theorem pumpCall_facts {dir : GoString} {e : Event} (h1 : e.isPumpCall dir = true) :
    e ≠ .recv ∧ e.isTeardown = false ∧ e.isRelayCall = true ∧
      ∀ d, d ≠ dir → e ≠ .send d := by
  cases e <;> simp_all [Event.isPumpCall, Event.isTeardown, Event.isRelayCall]
  intro d hd h
  exact hd h.symm

theorem not_send_ne {e : Event} (h : e.isSend = false) (d : GoString) : e ≠ .send d := by
  cases e <;> simp_all [Event.isSend]

theorem teardown_facts {e : Event} (h : e.isTeardown = true) :
    e ≠ .recv ∧ e.isRelayCall = true ∧ ∀ d, e ≠ .send d := by
  cases e <;> simp_all [Event.isTeardown, Event.isRelayCall]

theorem order_snoc {t : List Event} {x : Event} (ho : TeardownAfterSignals t)
    (hx : x.isTeardown = true → sendOut ∈ t ∧ sendIn ∈ t ∧ t.count Event.recv = 2) :
    TeardownAfterSignals (t ++ [x]) := by
  intro a e b hsplit he
  rcases snoc_eq_split hsplit with ⟨_, ha, hex⟩ | ⟨b', _, ht⟩
  · subst ha hex
    exact hx he
  · exact ho a e b' ht he

theorem Inv_init (P : Programs) : Inv P Relay.init := by
  constructor <;> simp [Relay.init, TeardownAfterSignals]

theorem Inv_out {P : Programs} {s s' : Relay} (h : Inv P s)
    (hs : step P .out s = some s') : Inv P s' := by
  simp only [step] at hs
  cases hp : pumpStep s.out s.done with
  | none => simp [hp] at hs
  | some r =>
    obtain ⟨es, d, e⟩ := r
    simp [hp] at hs
    subst hs
    obtain ⟨hprog, hcase⟩ := pumpStep_some hp
    have hcall : e.isPumpCall (str "stdout") = true := h.out_calls e (by simp [hprog])
    obtain ⟨hnr, hnt, hrc, hns⟩ := pumpCall_facts hcall
    have hnin : e ≠ sendIn := hns _ (by decide)
    have hpc : s.pc ≠ 0 := fun h0 => by simpa [hprog] using h.out_none h0
    have hcnt := h.out_cnt
    simp only [hprog, Option.getD_some, List.count_cons] at hcnt
    constructor
    · intro h0
      exact absurd h0 hpc
    · exact h.inp_none
    · intro hn
      simp at hn
    · intro hn
      simp only [count_snoc, if_neg hnin]
      exact h.inp_idle hn
    · simp only [count_snoc, Option.getD_some]
      by_cases he : e = sendOut
      · subst he
        simp at hcnt ⊢
        omega
      · have : (e == sendOut) = false := by simpa using he
        simp [this, he] at hcnt ⊢
        omega
    · simp only [count_snoc, if_neg hnin]
      exact h.inp_cnt
    · intro x hx
      exact h.out_calls x (by simp [hprog]; exact Or.inr (by simpa using hx))
    · exact h.inp_calls
    · simp only [count_snoc, if_neg hnr]
      exact h.recvs
    · have hc := h.chan
      simp only [count_snoc, if_neg hnr, if_neg hnin]
      rcases hcase with ⟨hsend, _, hd⟩ | ⟨hsend, hd⟩
      · have : e = sendOut := pumpCall_send hcall hsend
        simp [this, hd]
        omega
      · have : e ≠ sendOut := not_send_ne hsend _
        simp [this, hd]
        omega
    · simp only [List.filter_append, List.filter_cons, hnt]
      simpa using h.tear
    · exact h.pc_le
    · intro x hx
      rcases List.mem_append.mp hx with hx | hx
      · exact h.calls x hx
      · simp at hx
        subst hx
        exact hrc
    · exact order_snoc h.order (fun ht => by simp [hnt] at ht)

theorem Inv_inp {P : Programs} {s s' : Relay} (h : Inv P s)
    (hs : step P .inp s = some s') : Inv P s' := by
  simp only [step] at hs
  cases hp : pumpStep s.inp s.done with
  | none => simp [hp] at hs
  | some r =>
    obtain ⟨es, d, e⟩ := r
    simp [hp] at hs
    subst hs
    obtain ⟨hprog, hcase⟩ := pumpStep_some hp
    have hcall : e.isPumpCall (str "stdin") = true := h.inp_calls e (by simp [hprog])
    obtain ⟨hnr, hnt, hrc, hns⟩ := pumpCall_facts hcall
    have hnout : e ≠ sendOut := hns _ (by decide)
    have hpc : ¬ s.pc ≤ 1 := fun h0 => by simpa [hprog] using h.inp_none h0
    have hcnt := h.inp_cnt
    simp only [hprog, Option.getD_some, List.count_cons] at hcnt
    constructor
    · exact h.out_none
    · intro h0
      exact absurd h0 hpc
    · intro hn
      simp only [count_snoc, if_neg hnout]
      exact h.out_idle hn
    · intro hn
      simp at hn
    · simp only [count_snoc, if_neg hnout]
      exact h.out_cnt
    · simp only [count_snoc, Option.getD_some]
      by_cases he : e = sendIn
      · subst he
        simp at hcnt ⊢
        omega
      · have : (e == sendIn) = false := by simpa using he
        simp [this, he] at hcnt ⊢
        omega
    · exact h.out_calls
    · intro x hx
      exact h.inp_calls x (by simp [hprog]; exact Or.inr (by simpa using hx))
    · simp only [count_snoc, if_neg hnr]
      exact h.recvs
    · have hc := h.chan
      simp only [count_snoc, if_neg hnr, if_neg hnout]
      rcases hcase with ⟨hsend, _, hd⟩ | ⟨hsend, hd⟩
      · have : e = sendIn := pumpCall_send hcall hsend
        simp [this, hd]
        omega
      · have : e ≠ sendIn := not_send_ne hsend _
        simp [this, hd]
        omega
    · simp only [List.filter_append, List.filter_cons, hnt]
      simpa using h.tear
    · exact h.pc_le
    · intro x hx
      rcases List.mem_append.mp hx with hx | hx
      · exact h.calls x hx
      · simp at hx
        subst hx
        exact hrc
    · exact order_snoc h.order (fun ht => by simp [hnt] at ht)

theorem count_pos_mem {a : Event} {t : List Event} (h : 0 < t.count a) : a ∈ t :=
  List.count_pos_iff.mp h

theorem Inv_main {P : Programs} (hP : P.WF) {s s' : Relay} (h : Inv P s)
    (hs : step P .main s = some s') : Inv P s' := by
  simp only [step] at hs
  unfold mainStep at hs
  have hco := h.out_cnt
  have hci := h.inp_cnt
  split at hs
  · rename_i hpc
    simp at hs
    subst hs
    have hon := h.out_none hpc
    have hin := h.inp_none (by omega)
    have ho0 := h.out_idle hon
    have hi0 := h.inp_idle hin
    have hr := h.recvs
    have hc := h.chan
    have ht := h.tear
    constructor
    · simp
    · intro _
      exact hin
    · simp
    · intro _
      simpa [count_snoc, sendIn] using hi0
    · have := hP.out_once
      simp [count_snoc, sendOut] at ho0 ⊢
      simp [sendOut] at this
      omega
    · simpa [count_snoc, sendIn] using hci
    · simpa using hP.out_calls
    · simpa using h.inp_calls
    · simpa [count_snoc, hpc] using hr
    · simp [count_snoc, sendOut, sendIn] at hc ⊢
      exact hc
    · simp [List.filter_append, Event.isTeardown, hpc] at ht ⊢
      exact ht
    · (simp; omega)
    · intro x hx
      rcases List.mem_append.mp hx with hx | hx
      · exact h.calls x hx
      · simp at hx
        subst hx
        rfl
    · exact order_snoc h.order (fun ht => by simp [Event.isTeardown] at ht)
  · rename_i hpc
    simp at hs
    subst hs
    have hin := h.inp_none (by omega)
    have hi0 := h.inp_idle hin
    have hr := h.recvs
    have hc := h.chan
    have ht := h.tear
    constructor
    · simp
    · simp
    · intro hn
      simpa [count_snoc, sendOut] using h.out_idle hn
    · simp
    · simpa [count_snoc, sendOut] using hco
    · have := hP.inp_once
      simp [count_snoc, sendIn] at hi0 ⊢
      simp [sendIn] at this
      omega
    · simpa using h.out_calls
    · simpa using hP.inp_calls
    · simpa [count_snoc, hpc] using hr
    · simp [count_snoc, sendOut, sendIn] at hc ⊢
      exact hc
    · simp [List.filter_append, Event.isTeardown, hpc] at ht ⊢
      exact ht
    · (simp; omega)
    · intro x hx
      rcases List.mem_append.mp hx with hx | hx
      · exact h.calls x hx
      · simp at hx
        subst hx
        rfl
    · exact order_snoc h.order (fun ht => by simp [Event.isTeardown] at ht)
  · rename_i hpc
    by_cases hd : s.done > 0
    · simp [hd] at hs
      subst hs
      have hr := h.recvs
      have hc := h.chan
      have ht := h.tear
      constructor
      · simp
      · simp
      · intro hn
        simpa [count_snoc, sendOut] using h.out_idle hn
      · intro hn
        simpa [count_snoc, sendIn] using h.inp_idle hn
      · simpa [count_snoc, sendOut] using hco
      · simpa [count_snoc, sendIn] using hci
      · simpa using h.out_calls
      · simpa using h.inp_calls
      · simp [count_snoc, hpc] at hr ⊢
        exact hr
      · simp [count_snoc, sendOut, sendIn] at hc ⊢
        omega
      · simp [List.filter_append, Event.isTeardown, hpc] at ht ⊢
        exact ht
      · (simp; omega)
      · intro x hx
        rcases List.mem_append.mp hx with hx | hx
        · exact h.calls x hx
        · simp at hx
          subst hx
          rfl
      · exact order_snoc h.order (fun ht => by simp [Event.isTeardown] at ht)
    · simp [hd] at hs
  · rename_i hpc
    by_cases hd : s.done > 0
    · simp [hd] at hs
      subst hs
      have hr := h.recvs
      have hc := h.chan
      have ht := h.tear
      constructor
      · simp
      · simp
      · intro hn
        simpa [count_snoc, sendOut] using h.out_idle hn
      · intro hn
        simpa [count_snoc, sendIn] using h.inp_idle hn
      · simpa [count_snoc, sendOut] using hco
      · simpa [count_snoc, sendIn] using hci
      · simpa using h.out_calls
      · simpa using h.inp_calls
      · simp [count_snoc, hpc] at hr ⊢
        exact hr
      · simp [count_snoc, sendOut, sendIn] at hc ⊢
        omega
      · simp [List.filter_append, Event.isTeardown, hpc] at ht ⊢
        exact ht
      · simp
      · intro x hx
        rcases List.mem_append.mp hx with hx | hx
        · exact h.calls x hx
        · simp at hx
          subst hx
          rfl
      · exact order_snoc h.order (fun ht => by simp [Event.isTeardown] at ht)
    · simp [hd] at hs
  · rename_i n hpc
    cases hg : P.teardown[n]? with
    | none => simp [hg] at hs
    | some e =>
      simp [hg] at hs
      subst hs
      have hmem : e ∈ P.teardown := List.getElem?_mem hg
      have hte := hP.teardown_calls e hmem
      obtain ⟨hnr, hrc, hns⟩ := teardown_facts hte
      have hr := h.recvs
      have hc := h.chan
      have ht := h.tear
      have hlt : n < P.teardown.length := by
        rcases List.getElem?_eq_some_iff.mp hg with ⟨hlt, _⟩
        exact hlt
      have hne1 : e ≠ sendOut := hns _
      have hne2 : e ≠ sendIn := hns _
      constructor
      · simp
      · simp
      · intro hn
        simp only [count_snoc, if_neg hne1]
        exact h.out_idle hn
      · intro hn
        simp only [count_snoc, if_neg hne2]
        exact h.inp_idle hn
      · simp only [count_snoc, if_neg hne1]
        exact hco
      · simp only [count_snoc, if_neg hne2]
        exact hci
      · simpa using h.out_calls
      · simpa using h.inp_calls
      · simp only [count_snoc, if_neg hnr]
        simp [hpc] at hr ⊢
        exact hr
      · simp only [count_snoc, if_neg hnr, if_neg hne1, if_neg hne2]
        exact hc
      · simp [List.filter_append, hte, hpc] at ht ⊢
        rw [ht, List.take_succ, hg]
        simp
      · simp
        omega
      · intro x hx
        rcases List.mem_append.mp hx with hx | hx
        · exact h.calls x hx
        · simp at hx
          subst hx
          exact hrc
      · refine order_snoc h.order (fun _ => ?_)
        simp [hpc] at hr
        have h1 : s.trace.count sendOut ≤ 1 := by omega
        have h2 : s.trace.count sendIn ≤ 1 := by omega
        refine ⟨count_pos_mem (by omega), count_pos_mem (by omega), hr⟩

theorem Inv_step {P : Programs} (hP : P.WF) {t : Tid} {s s' : Relay} (h : Inv P s)
    (hs : step P t s = some s') : Inv P s' := by
  cases t
  · exact Inv_main hP h hs
  · exact Inv_out h hs
  · exact Inv_inp h hs

theorem Inv_run {P : Programs} (hP : P.WF) (sched : List Tid) :
    ∀ s, Inv P s → Inv P (run P sched s) := by
  induction sched with
  | nil => intro s h; exact h
  | cons t ts ih =>
    intro s h
    simp only [run]
    cases hs : step P t s with
    | none => simpa using ih s h
    | some s' => simpa using ih s' (Inv_step hP h hs)

/-! ## The pump programs are well formed -/

theorem pumpStdout_eq_pipe (reads : List ReadResult) :
    pumpStdout reads = pipe .backend .channel (str "stdout") reads := by
  induction reads with
  | nil => rfl
  | cons r rs ih =>
    simp only [pumpStdout, pipe, ih]

theorem pumpStdin_eq_pipe (reads : List ReadResult) :
    pumpStdin reads = pipe .channel .backend (str "stdin") reads := by
  induction reads with
  | nil => rfl
  | cons r rs ih =>
    simp only [pumpStdin, pipe, ih]

theorem pipe_calls (src dst : Stream) (dir : GoString) (reads : List ReadResult) :
    ∀ e ∈ pipe src dst dir reads, e.isPumpCall dir = true := by
  induction reads with
  | nil => simp [pipe, Event.isPumpCall]
  | cons r rs ih =>
    intro e he
    simp only [pipe, List.mem_cons, List.mem_append] at he
    rcases he with he | he | he
    · subst he
      rfl
    · split at he
      · simp at he
        rcases he with he | he <;> subst he <;> rfl
      · simp at he
    · split at he
      · simp at he
        subst he
        simp [Event.isPumpCall]
      · exact ih e he

theorem pipe_send_once (src dst : Stream) (dir : GoString) (reads : List ReadResult) :
    (pipe src dst dir reads).count (.send dir) ≤ 1 := by
  induction reads with
  | nil => simp [pipe]
  | cons r rs ih =>
    simp only [pipe]
    rw [List.count_cons, List.count_append]
    have h1 : (if r.data.length > 0 then
        [Event.write dst r.data, Event.record dir r.data] else []).count (.send dir) = 0 := by
      split <;> simp
    rw [h1]
    cases hr : r.err with
    | some x => simp
    | none => simpa using ih

theorem handlerPrograms_WF (w : World) : (handlerPrograms w).WF := by
  constructor
  · simpa [handlerPrograms, pumpStdout_eq_pipe] using pipe_calls _ _ _ _
  · simpa [handlerPrograms, pumpStdin_eq_pipe] using pipe_calls _ _ _ _
  · simpa [handlerPrograms, pumpStdout_eq_pipe, sendOut] using pipe_send_once _ _ _ _
  · simpa [handlerPrograms, pumpStdin_eq_pipe, sendIn] using pipe_send_once _ _ _ _
  · simp [handlerPrograms, Event.isTeardown]

theorem Server.programs_WF (backendReads channelReads : List ReadResult) :
    (Server.programs backendReads channelReads).WF := by
  constructor
  · simpa [Server.programs] using pipe_calls _ _ _ _
  · simpa [Server.programs] using pipe_calls _ _ _ _
  · simpa [Server.programs, sendOut] using pipe_send_once _ _ _ _
  · simpa [Server.programs, sendIn] using pipe_send_once _ _ _ _
  · simp [Server.programs, Event.isTeardown]

/-! ## Claims about the early returns of `handleSession` -/

theorem handleSession_returned {w : World} {deps : SSHDependencies} {x : Exit} {t : List Event}
    (h : handleSessionSetup w deps = .returned x t) (sched : List Tid) :
    handleSession w deps sched = t := by
  simp [handleSession, h]

/-- C8: when the identity does not parse, the handler writes the error text and a
newline to the channel, closes it, and calls neither the policy engine, nor the
agent manager, nor `DirectDial`, nor the recorder. -/
theorem handleSession_parse_failure (w : World) (deps : SSHDependencies) (sched : List Tid)
    (e : GoString) (hacc : w.acceptErr = none) (hparse : parseUser w.User = .error e) :
    handleSession w deps sched
      = [.accept, .write .channel (e ++ str "\n"), .close .channel] ∧
    (handleSessionSetup w deps).exit = some .parseFailed ∧
    ∀ x ∈ handleSession w deps sched,
      x.isPolicyCall = false ∧ x.isAgentCall = false ∧ x.isDial = false ∧
      x.isRecorderCreate = false ∧ x.isPumpStart = false := by
  have hs : handleSessionSetup w deps
      = .returned .parseFailed [.accept, .write .channel (e ++ str "\n"), .close .channel] := by
    simp [handleSessionSetup, hacc, hparse]
  rw [handleSession_returned hs sched, hs]
  refine ⟨rfl, rfl, ?_⟩
  intro x hx
  simp at hx
  rcases hx with hx | hx | hx <;> subst hx <;> simp [Event.isPolicyCall, Event.isAgentCall,
    Event.isDial, Event.isRecorderCreate, Event.isPumpStart]

/-- C3: when a policy engine is configured and denies the pair, the handler
writes exactly `ACCESS DENIED\n`, closes the channel, and makes no agent lookup,
no `CreateSession`, no direct dial and no recorder. -/
theorem handleSession_denied (w : World) (deps : SSHDependencies) (sched : List Tid)
    (user target : GoString) (r : RBAC) (hacc : w.acceptErr = none)
    (hparse : parseUser w.User = .ok (user, target)) (hr : deps.RBAC = some r)
    (hdeny : r.Allows user target = false) :
    handleSession w deps sched
      = [.accept, .allows user target, .write .channel (str "ACCESS DENIED\n"),
          .close .channel] ∧
    (handleSessionSetup w deps).exit = some .denied ∧
    ∀ x ∈ handleSession w deps sched,
      x.isAgentCall = false ∧ x.isDial = false ∧
      x.isRecorderCreate = false ∧ x.isPumpStart = false := by
  have hs : handleSessionSetup w deps
      = .returned .denied [.accept, .allows user target,
          .write .channel (str "ACCESS DENIED\n"), .close .channel] := by
    simp [handleSessionSetup, hacc, hparse, hr, hdeny]
  rw [handleSession_returned hs sched, hs]
  refine ⟨rfl, rfl, ?_⟩
  intro x hx
  simp at hx
  rcases hx with hx | hx | hx | hx <;> subst hx <;> simp [Event.isAgentCall,
    Event.isDial, Event.isRecorderCreate, Event.isPumpStart]

theorem relay_trace_calls (w : World) (sched : List Tid) :
    ∀ e ∈ (run (handlerPrograms w) sched Relay.init).trace, e.isRelayCall = true :=
  (Inv_run (handlerPrograms_WF w) sched _ (Inv_init _)).calls

theorem relayCall_facts {e : Event} (h : e.isRelayCall = true) :
    e.isPolicyCall = false ∧ e.isAgentCall = false ∧ e.isDial = false ∧
      e.isRecorderCreate = false := by
  cases e <;> simp_all [Event.isRelayCall, Event.isPolicyCall, Event.isAgentCall,
    Event.isDial, Event.isRecorderCreate]

/-- C5: when no agent stream is obtained and the direct dial fails with `e`, the
handler writes the text of `e` to the channel, closes it and returns: the recorder
is never created and no pump is started. -/
theorem handleSession_dial_failure (w : World) (deps : SSHDependencies) (sched : List Tid)
    (user target e : GoString) (hacc : w.acceptErr = none)
    (hparse : parseUser w.User = .ok (user, target))
    (hauth : ∀ r, deps.RBAC = some r → r.Allows user target = true)
    (hnoagent : deps.AgentMgr.GetAgent target = none ∨
      ∃ agent err, deps.AgentMgr.GetAgent target = some agent ∧
        agent.CreateSession (w.NewSessionID 0) target = .error err)
    (hdial : w.DirectDial target = .error e) :
    (∃ pre, handleSession w deps sched
        = pre ++ [.directDial target, .write .channel e, .close .channel] ∧
      ∀ x ∈ pre, x = .accept ∨ x.isPolicyCall = true ∨ x.isAgentCall = true ∨
        x = .newSessionID) ∧
    (handleSessionSetup w deps).exit = some .dialFailed ∧
    delivered .channel (handleSession w deps sched) = [e] ∧
    ∀ x ∈ handleSession w deps sched,
      x.isRecorderCreate = false ∧ x.isPumpStart = false ∧ x.isPumpOnly = false := by
  have key : ∃ pre, handleSessionSetup w deps
      = .returned .dialFailed (pre ++ [.directDial target, .write .channel e, .close .channel]) ∧
      ∀ x ∈ pre, x = .accept ∨ x.isPolicyCall = true ∨ x.isAgentCall = true ∨
        x = .newSessionID := by
    cases hR : deps.RBAC with
    | none =>
      rcases hnoagent with hg | ⟨agent, err, hg, hc⟩
      · refine ⟨[.accept, .getAgent target], ?_, ?_⟩
        · simp [handleSessionSetup, hacc, hparse, hR, hg, hdial]
        · intro x hx
          simp at hx
          rcases hx with hx | hx <;> subst hx <;> simp [Event.isAgentCall]
      · refine ⟨[.accept, .getAgent target, .newSessionID,
          .createSession (w.NewSessionID 0) target], ?_, ?_⟩
        · simp [handleSessionSetup, hacc, hparse, hR, hg, hc, hdial]
        · intro x hx
          simp at hx
          rcases hx with hx | hx | hx | hx <;> subst hx <;> simp [Event.isAgentCall]
    | some r =>
      have ha := hauth r hR
      rcases hnoagent with hg | ⟨agent, err, hg, hc⟩
      · refine ⟨[.accept, .allows user target, .getAgent target], ?_, ?_⟩
        · simp [handleSessionSetup, hacc, hparse, hR, ha, hg, hdial]
        · intro x hx
          simp at hx
          rcases hx with hx | hx | hx <;> subst hx <;>
            simp [Event.isAgentCall, Event.isPolicyCall]
      · refine ⟨[.accept, .allows user target, .getAgent target, .newSessionID,
          .createSession (w.NewSessionID 0) target], ?_, ?_⟩
        · simp [handleSessionSetup, hacc, hparse, hR, ha, hg, hc, hdial]
        · intro x hx
          simp at hx
          rcases hx with hx | hx | hx | hx | hx <;> subst hx <;>
            simp [Event.isAgentCall, Event.isPolicyCall]
  obtain ⟨pre, hs, hpre⟩ := key
  rw [handleSession_returned hs sched, hs]
  have hpre' : ∀ x ∈ pre, x.isRecorderCreate = false ∧ x.isPumpStart = false ∧
      x.isPumpOnly = false ∧ ∀ d b, x ≠ .write d b := by
    intro x hx
    rcases hpre x hx with h | h | h | h
    · subst h
      simp [Event.isRecorderCreate, Event.isPumpStart, Event.isPumpOnly]
    · cases x <;> simp_all [Event.isPolicyCall, Event.isRecorderCreate, Event.isPumpStart,
        Event.isPumpOnly]
    · cases x <;> simp_all [Event.isAgentCall, Event.isRecorderCreate, Event.isPumpStart,
        Event.isPumpOnly]
    · subst h
      simp [Event.isRecorderCreate, Event.isPumpStart, Event.isPumpOnly]
  have hdel : ∀ l : List Event, (∀ x ∈ l, ∀ d b, x ≠ .write d b) →
      ∀ l', delivered .channel (l ++ l') = delivered .channel l' := by
    intro l
    induction l with
    | nil => intro _ l'; rfl
    | cons y ys ih =>
      intro hl l'
      have hy := hl y (by simp)
      have := ih (fun x hx => hl x (by simp [hx])) l'
      cases y <;> simp_all [delivered]
  refine ⟨⟨pre, rfl, hpre⟩, rfl, ?_, ?_⟩
  · show delivered .channel (pre ++ _) = [e]
    rw [hdel pre (fun x hx => (hpre' x hx).2.2.2)]
    simp [delivered]
  · intro x hx
    show _ ∧ _ ∧ _
    rcases List.mem_append.mp hx with hx | hx
    · exact ⟨(hpre' x hx).1, (hpre' x hx).2.1, (hpre' x hx).2.2.1⟩
    · simp at hx
      rcases hx with hx | hx | hx <;> subst hx <;>
        simp [Event.isRecorderCreate, Event.isPumpStart, Event.isPumpOnly]

theorem handleSession_eq_setup_append (w : World) (deps : SSHDependencies) (sched : List Tid) :
    ∃ r, handleSession w deps sched = (handleSessionSetup w deps).trace ++ r ∧
      ∀ e ∈ r, e.isRelayCall = true := by
  cases hs : handleSessionSetup w deps with
  | returned x t => exact ⟨[], by simp [handleSession, hs, Outcome.trace], by simp⟩
  | relay t b sid =>
    exact ⟨_, by simp [handleSession, hs, Outcome.trace], relay_trace_calls w sched⟩

/-- C9: without a policy engine (`deps.RBAC` nil) the handler does not take the
denial return and never calls a policy engine: after `Accept` its next call is the
agent lookup for `target`, and the only text it writes to the channel before the
relay is the error of a failed `DirectDial`. -/
theorem handleSession_no_policy_engine (w : World) (deps : SSHDependencies) (sched : List Tid)
    (user target : GoString) (hacc : w.acceptErr = none)
    (hparse : parseUser w.User = .ok (user, target)) (hnil : deps.RBAC = none) :
    (handleSessionSetup w deps).exit ≠ some .denied ∧
    (∀ x ∈ handleSession w deps sched, x.isPolicyCall = false) ∧
    (∀ d b, .write d b ∈ (handleSessionSetup w deps).trace →
      d = .channel ∧ w.DirectDial target = .error b) ∧
    ∃ rest, handleSession w deps sched = .accept :: .getAgent target :: rest := by
  obtain ⟨r, hr, hrc⟩ := handleSession_eq_setup_append w deps sched
  have key : (handleSessionSetup w deps).exit ≠ some .denied ∧
      (∀ x ∈ (handleSessionSetup w deps).trace, x.isPolicyCall = false) ∧
      (∀ d b, .write d b ∈ (handleSessionSetup w deps).trace →
        d = .channel ∧ w.DirectDial target = .error b) ∧
      ∃ rest, (handleSessionSetup w deps).trace = .accept :: .getAgent target :: rest := by
    cases hg : deps.AgentMgr.GetAgent target with
    | none =>
      cases hd : w.DirectDial target with
      | error e =>
        simp [handleSessionSetup, hacc, hparse, hnil, hg, hd, Outcome.exit, Outcome.trace,
          Event.isPolicyCall]
      | ok conn =>
        simp [handleSessionSetup, hacc, hparse, hnil, hg, hd, Outcome.exit, Outcome.trace,
          Event.isPolicyCall]
    | some agent =>
      cases hc : agent.CreateSession (w.NewSessionID 0) target with
      | ok p =>
        obtain ⟨recv, send⟩ := p
        simp [handleSessionSetup, hacc, hparse, hnil, hg, hc, Outcome.exit, Outcome.trace,
          Event.isPolicyCall]
      | error err =>
        cases hd : w.DirectDial target with
        | error e =>
          simp [handleSessionSetup, hacc, hparse, hnil, hg, hc, hd, Outcome.exit,
            Outcome.trace, Event.isPolicyCall]
        | ok conn =>
          simp [handleSessionSetup, hacc, hparse, hnil, hg, hc, hd, Outcome.exit,
            Outcome.trace, Event.isPolicyCall]
  obtain ⟨h1, h2, h4, rest, h3⟩ := key
  refine ⟨h1, ?_, h4, rest ++ r, ?_⟩
  · intro x hx
    rw [hr] at hx
    rcases List.mem_append.mp hx with hx | hx
    · exact h2 x hx
    · exact (relayCall_facts (hrc x hx)).1
  · rw [hr, h3]
    simp

/-- C4: for an authorized session, an agent registered for `target` whose
`CreateSession` succeeds gives the agent stream as backend and `DirectDial` is
never called; with no agent, or a failing `CreateSession`, `DirectDial(target)` is
called exactly once and its connection, when there is one, is the backend. -/
theorem handleSession_backend_resolution (w : World) (deps : SSHDependencies)
    (sched : List Tid) (user target : GoString) (hacc : w.acceptErr = none)
    (hparse : parseUser w.User = .ok (user, target))
    (hauth : ∀ r, deps.RBAC = some r → r.Allows user target = true) :
    (∀ agent recv send, deps.AgentMgr.GetAgent target = some agent →
        agent.CreateSession (w.NewSessionID 0) target = .ok (recv, send) →
        (handleSessionSetup w deps).backend = some (.agentConn recv send) ∧
        ∀ x ∈ handleSession w deps sched, x.isDial = false) ∧
    ((deps.AgentMgr.GetAgent target = none ∨
        ∃ agent err, deps.AgentMgr.GetAgent target = some agent ∧
          agent.CreateSession (w.NewSessionID 0) target = .error err) →
        (handleSession w deps sched).countP Event.isDial = 1 ∧
        (handleSession w deps sched).count (.directDial target) = 1 ∧
        (∀ conn, w.DirectDial target = .ok conn →
          (handleSessionSetup w deps).backend = some (.directConn conn)) ∧
        (∀ e, w.DirectDial target = .error e →
          (handleSessionSetup w deps).backend = none)) := by
  obtain ⟨r, hr, hrc⟩ := handleSession_eq_setup_append w deps sched
  have hr0 : r.countP Event.isDial = 0 := by
    rw [List.countP_eq_zero]
    intro x hx
    simp [(relayCall_facts (hrc x hx)).2.2.1]
  have hr1 : r.count (.directDial target) = 0 := by
    rw [List.count_eq_zero]
    intro hx
    have := hrc _ hx
    simp [Event.isRelayCall] at this
  constructor
  · intro agent recv send hg hc
    have hs : (handleSessionSetup w deps).backend = some (.agentConn recv send) ∧
        ∀ x ∈ (handleSessionSetup w deps).trace, x.isDial = false := by
      cases hR : deps.RBAC with
      | none =>
        simp [handleSessionSetup, hacc, hparse, hR, hg, hc, Outcome.backend, Outcome.trace,
          Event.isDial]
      | some r =>
        simp [handleSessionSetup, hacc, hparse, hR, hauth r hR, hg, hc, Outcome.backend,
          Outcome.trace, Event.isDial]
    refine ⟨hs.1, ?_⟩
    intro x hx
    rw [hr] at hx
    rcases List.mem_append.mp hx with hx | hx
    · exact hs.2 x hx
    · exact (relayCall_facts (hrc x hx)).2.2.1
  · intro hno
    have hs : (handleSessionSetup w deps).trace.countP Event.isDial = 1 ∧
        (handleSessionSetup w deps).trace.count (.directDial target) = 1 ∧
        (∀ conn, w.DirectDial target = .ok conn →
          (handleSessionSetup w deps).backend = some (.directConn conn)) ∧
        (∀ e, w.DirectDial target = .error e →
          (handleSessionSetup w deps).backend = none) := by
      cases hR : deps.RBAC with
      | none =>
        rcases hno with hg | ⟨agent, err, hg, hc⟩
        · cases hd : w.DirectDial target <;>
            simp [handleSessionSetup, hacc, hparse, hR, hg, hd, Outcome.backend,
              Outcome.trace, Event.isDial, List.countP_cons, List.count_cons]
        · cases hd : w.DirectDial target <;>
            simp [handleSessionSetup, hacc, hparse, hR, hg, hc, hd, Outcome.backend,
              Outcome.trace, Event.isDial, List.countP_cons, List.count_cons]
      | some r =>
        have ha := hauth r hR
        rcases hno with hg | ⟨agent, err, hg, hc⟩
        · cases hd : w.DirectDial target <;>
            simp [handleSessionSetup, hacc, hparse, hR, ha, hg, hd, Outcome.backend,
              Outcome.trace, Event.isDial, List.countP_cons, List.count_cons]
        · cases hd : w.DirectDial target <;>
            simp [handleSessionSetup, hacc, hparse, hR, ha, hg, hc, hd, Outcome.backend,
              Outcome.trace, Event.isDial, List.countP_cons, List.count_cons]
    refine ⟨?_, ?_, hs.2.2.1, hs.2.2.2⟩
    · rw [hr, List.countP_append, hr0, hs.1]
    · rw [hr, List.count_append, hr1, hs.2.1]

/-! ## Claims about the pumps -/

theorem pipe_recorded_delivered (src dst : Stream) (dir : GoString) (reads : List ReadResult) :
    recorded dir (pipe src dst dir reads) = nonEmptyChunks (throughFirstErr reads) ∧
    delivered dst (pipe src dst dir reads) = nonEmptyChunks (throughFirstErr reads) := by
  induction reads with
  | nil => simp [pipe, recorded, delivered, throughFirstErr, nonEmptyChunks]
  | cons r rs ih =>
    obtain ⟨ih1, ih2⟩ := ih
    simp only [nonEmptyChunks] at ih1 ih2
    by_cases hn : r.data.length > 0
    · cases he : r.err with
      | some x =>
        simp [pipe, recorded, delivered, throughFirstErr, nonEmptyChunks, hn, he]
      | none =>
        simp [pipe, recorded, delivered, throughFirstErr, nonEmptyChunks, hn, he, ih1, ih2]
    · cases he : r.err with
      | some x =>
        simp [pipe, recorded, delivered, throughFirstErr, nonEmptyChunks, hn, he]
      | none =>
        simp [pipe, recorded, delivered, throughFirstErr, nonEmptyChunks, hn, he, ih1, ih2]

theorem join_nonEmptyChunks (rs : List ReadResult) :
    (nonEmptyChunks rs).flatten = (rs.map (·.data)).flatten := by
  induction rs with
  | nil => rfl
  | cons r rs ih =>
    simp only [nonEmptyChunks] at ih
    by_cases hn : r.data.length > 0
    · simp [nonEmptyChunks, hn, ih]
    · have : r.data = [] := by
        cases hd : r.data with
        | nil => rfl
        | cons a l => simp [hd] at hn
      simp [nonEmptyChunks, this, ih]

/-- C6: for each pump loop (the `stdout` and `stdin` goroutines of handler.go and
`pipe` of server.go) and every finite sequence of read results, the chunks recorded
under the loop's tag are the chunks handed to its destination, in the same order:
the non-empty chunks read up to and including the first read with an error; so
the recorded bytes, the delivered bytes and the bytes read up to there are equal. -/
theorem pump_recorded_eq_delivered (src dst : Stream) (dir : GoString)
    (reads : List ReadResult) :
    (recorded (str "stdout") (pumpStdout reads) = delivered .channel (pumpStdout reads) ∧
      delivered .channel (pumpStdout reads) = nonEmptyChunks (throughFirstErr reads) ∧
      (recorded (str "stdout") (pumpStdout reads)).flatten
        = ((throughFirstErr reads).map (·.data)).flatten ∧
      (delivered .channel (pumpStdout reads)).flatten
        = ((throughFirstErr reads).map (·.data)).flatten) ∧
    (recorded (str "stdin") (pumpStdin reads) = delivered .backend (pumpStdin reads) ∧
      delivered .backend (pumpStdin reads) = nonEmptyChunks (throughFirstErr reads) ∧
      (recorded (str "stdin") (pumpStdin reads)).flatten
        = ((throughFirstErr reads).map (·.data)).flatten ∧
      (delivered .backend (pumpStdin reads)).flatten
        = ((throughFirstErr reads).map (·.data)).flatten) ∧
    (recorded dir (pipe src dst dir reads) = delivered dst (pipe src dst dir reads) ∧
      delivered dst (pipe src dst dir reads) = nonEmptyChunks (throughFirstErr reads) ∧
      (recorded dir (pipe src dst dir reads)).flatten
        = ((throughFirstErr reads).map (·.data)).flatten ∧
      (delivered dst (pipe src dst dir reads)).flatten
        = ((throughFirstErr reads).map (·.data)).flatten) := by
  have key : ∀ (src dst : Stream) (dir : GoString),
      recorded dir (pipe src dst dir reads) = delivered dst (pipe src dst dir reads) ∧
      delivered dst (pipe src dst dir reads) = nonEmptyChunks (throughFirstErr reads) ∧
      (recorded dir (pipe src dst dir reads)).flatten
        = ((throughFirstErr reads).map (·.data)).flatten ∧
      (delivered dst (pipe src dst dir reads)).flatten
        = ((throughFirstErr reads).map (·.data)).flatten := by
    intro src dst dir
    obtain ⟨h1, h2⟩ := pipe_recorded_delivered src dst dir reads
    refine ⟨h1.trans h2.symm, h2, ?_, ?_⟩
    · rw [h1, join_nonEmptyChunks]
    · rw [h2, join_nonEmptyChunks]
  rw [pumpStdout_eq_pipe, pumpStdin_eq_pipe]
  exact ⟨key _ _ _, key _ _ _, key _ _ _⟩

/-! ## Claims about the join and the teardown -/

theorem setup_relay_trace {w : World} {deps : SSHDependencies} {t : List Event} {b : Backend}
    {sid : GoString} (h : handleSessionSetup w deps = .relay t b sid) :
    ∀ e ∈ t, e.isRelayCall = false := by
  have key : ∀ e ∈ (handleSessionSetup w deps).trace,
      (handleSessionSetup w deps).exit = none → e.isRelayCall = false := by
    cases hacc : w.acceptErr with
    | some x => simp [handleSessionSetup, hacc, Outcome.exit]
    | none =>
      cases hparse : parseUser w.User with
      | error e => simp [handleSessionSetup, hacc, hparse, Outcome.exit]
      | ok p =>
        obtain ⟨user, target⟩ := p
        cases hR : deps.RBAC with
        | none =>
          cases hg : deps.AgentMgr.GetAgent target with
          | none =>
            cases hd : w.DirectDial target <;>
              simp [handleSessionSetup, hacc, hparse, hR, hg, hd, Outcome.exit, Outcome.trace,
                Event.isRelayCall]
          | some agent =>
            cases hc : agent.CreateSession (w.NewSessionID 0) target with
            | ok p =>
              obtain ⟨recv, send⟩ := p
              simp [handleSessionSetup, hacc, hparse, hR, hg, hc, Outcome.exit, Outcome.trace,
                Event.isRelayCall]
            | error err =>
              cases hd : w.DirectDial target <;>
                simp [handleSessionSetup, hacc, hparse, hR, hg, hc, hd, Outcome.exit,
                  Outcome.trace, Event.isRelayCall]
        | some r =>
          cases ha : r.Allows user target with
          | false => simp [handleSessionSetup, hacc, hparse, hR, ha, Outcome.exit]
          | true =>
            cases hg : deps.AgentMgr.GetAgent target with
            | none =>
              cases hd : w.DirectDial target <;>
                simp [handleSessionSetup, hacc, hparse, hR, ha, hg, hd, Outcome.exit,
                  Outcome.trace, Event.isRelayCall]
            | some agent =>
              cases hc : agent.CreateSession (w.NewSessionID 0) target with
              | ok p =>
                obtain ⟨recv, send⟩ := p
                simp [handleSessionSetup, hacc, hparse, hR, ha, hg, hc, Outcome.exit,
                  Outcome.trace, Event.isRelayCall]
              | error err =>
                cases hd : w.DirectDial target <;>
                  simp [handleSessionSetup, hacc, hparse, hR, ha, hg, hc, hd, Outcome.exit,
                    Outcome.trace, Event.isRelayCall]
  intro e he
  have := key e (by simp [h, Outcome.trace, he])
  exact this (by simp [h, Outcome.exit])

theorem append_eq_split {t r a c : List Event} {e : Event} (h : t ++ r = a ++ e :: c)
    (ht : e ∉ t) : ∃ a', a = t ++ a' ∧ r = a' ++ e :: c := by
  rcases List.append_eq_append_iff.mp h with ⟨a', ha, hr⟩ | ⟨c', ht', hc⟩
  · exact ⟨a', ha, hr⟩
  · cases c' with
    | nil =>
      simp at ht' hc
      exact ⟨[], by simp [ht'], by simp [hc]⟩
    | cons x xs =>
      simp at hc
      exfalso
      apply ht
      rw [ht', hc.1]
      simp

theorem teardown_counts {P : Programs} {s : Relay} (h : Inv P s) (a : Event)
    (ha : a.isTeardown = true) :
    s.trace.count a = (P.teardown.take (s.pc - 4)).count a := by
  rw [← h.tear, List.count_filter ha]

/-- In a relay whose teardown is three distinct `Close` calls, each of them is made
at most once, exactly once when the handler has returned, and only after both
sends on `done` and both receives. -/
theorem relay_teardown {P : Programs} (hP : P.WF) (sched : List Tid) (a b c : Event)
    (hab : a ≠ b) (hac : a ≠ c) (hbc : b ≠ c)
    (htd : P.teardown = [a, b, c]) :
    (∀ x ∈ [a, b, c], (run P sched Relay.init).trace.count x ≤ 1 ∧
      ((run P sched Relay.init).returned P = true →
        (run P sched Relay.init).trace.count x = 1)) ∧
    TeardownAfterSignals (run P sched Relay.init).trace := by
  have hI := Inv_run hP sched _ (Inv_init P)
  refine ⟨?_, hI.order⟩
  intro x hx
  have hxt : x.isTeardown = true := hP.teardown_calls x (by rw [htd]; exact hx)
  have hc := teardown_counts hI x hxt
  have hle := hI.pc_le
  rw [htd] at hc hle
  simp at hx
  have hba := Ne.symm hab
  have hca := Ne.symm hac
  have hcb := Ne.symm hbc
  constructor
  · rw [hc]
    rcases Nat.lt_or_ge ((run P sched Relay.init).pc - 4) 3 with hk | hk
    · interval_cases hk' : ((run P sched Relay.init).pc - 4) <;>
        rcases hx with hx | hx | hx <;> subst hx <;>
        simp [List.count_cons, hab, hac, hbc, hba, hca, hcb]
    · rw [List.take_of_length_le (by simpa using hk)]
      rcases hx with hx | hx | hx <;> subst hx <;>
        simp [List.count_cons, hab, hac, hbc, hba, hca, hcb]
  · intro hret
    simp [Relay.returned, htd] at hret
    rw [hc, hret]
    rcases hx with hx | hx | hx <;> subst hx <;>
      simp [List.count_cons, hab, hac, hbc, hba, hca, hcb]

theorem teardownAfterSignals_append {t r : List Event}
    (ht : ∀ e ∈ t, e.isRelayCall = false) (hr : TeardownAfterSignals r) :
    TeardownAfterSignals (t ++ r) := by
  intro a e c hsplit he
  have het : e ∉ t := by
    intro hmem
    have h1 := ht e hmem
    have h2 := (teardown_facts he).2.1
    rw [h1] at h2
    exact absurd h2 (by simp)
  obtain ⟨a', ha, hr'⟩ := append_eq_split hsplit het
  obtain ⟨h1, h2, h3⟩ := hr a' e c hr' he
  have hrecv : t.count Event.recv = 0 := by
    rw [List.count_eq_zero]
    intro hmem
    have := ht _ hmem
    simp [Event.isRelayCall] at this
  subst ha
  refine ⟨List.mem_append_right _ h1, List.mem_append_right _ h2, ?_⟩
  rw [List.count_append, hrecv, h3]

/-- C7: in a run of `handleSession` that reaches the relay, `backend.Close()` and
`rec.Close()` are each called at most once, exactly once when the handler has
returned, and every `Close` comes after both pumps' sends on `done` and after the
handler's two receives; the same holds for the relay of server.go. -/
theorem handleSession_join_then_close (w : World) (deps : SSHDependencies) (sched : List Tid)
    (t : List Event) (b : Backend) (sid : GoString)
    (hrelay : handleSessionSetup w deps = .relay t b sid)
    (backendReads channelReads : List ReadResult) :
    (handleSession w deps sched = t ++ (run (handlerPrograms w) sched Relay.init).trace ∧
      (handleSession w deps sched).count (.close .backend) ≤ 1 ∧
      (handleSession w deps sched).count .recClose ≤ 1 ∧
      ((run (handlerPrograms w) sched Relay.init).returned (handlerPrograms w) = true →
        (handleSession w deps sched).count (.close .backend) = 1 ∧
        (handleSession w deps sched).count .recClose = 1) ∧
      TeardownAfterSignals (handleSession w deps sched)) ∧
    ((run (Server.programs backendReads channelReads) sched Relay.init).trace.count
        (.close .backend) ≤ 1 ∧
      (run (Server.programs backendReads channelReads) sched Relay.init).trace.count
        .recClose ≤ 1 ∧
      ((run (Server.programs backendReads channelReads) sched Relay.init).returned
          (Server.programs backendReads channelReads) = true →
        (run (Server.programs backendReads channelReads) sched Relay.init).trace.count
          (.close .backend) = 1 ∧
        (run (Server.programs backendReads channelReads) sched Relay.init).trace.count
          .recClose = 1) ∧
      TeardownAfterSignals
        (run (Server.programs backendReads channelReads) sched Relay.init).trace) := by
  constructor
  · have hs : handleSession w deps sched
        = t ++ (run (handlerPrograms w) sched Relay.init).trace := by
      simp [handleSession, hrelay]
    have ht := setup_relay_trace hrelay
    have hcount : ∀ x : Event, x.isTeardown = true → t.count x = 0 := by
      intro x hx
      rw [List.count_eq_zero]
      intro hmem
      have h1 := ht x hmem
      have h2 := (teardown_facts hx).2.1
      rw [h1] at h2
      exact absurd h2 (by simp)
    obtain ⟨hcnt, hord⟩ := relay_teardown (handlerPrograms_WF w) sched
      (.close .backend) .recClose (.close .channel) (by decide) (by decide) (by decide) rfl
    have h1 := hcnt (.close .backend) (by simp)
    have h2 := hcnt .recClose (by simp)
    rw [hs]
    refine ⟨rfl, ?_, ?_, ?_, teardownAfterSignals_append ht hord⟩
    · rw [List.count_append, hcount (.close .backend) rfl]
      simpa using h1.1
    · rw [List.count_append, hcount .recClose rfl]
      simpa using h2.1
    · intro hret
      rw [List.count_append, List.count_append, hcount (.close .backend) rfl,
        hcount .recClose rfl]
      exact ⟨by simpa using h1.2 hret, by simpa using h2.2 hret⟩
  · obtain ⟨hcnt, hord⟩ := relay_teardown (Server.programs_WF backendReads channelReads) sched
      .recClose (.close .backend) (.close .channel) (by decide) (by decide) (by decide) rfl
    have h1 := hcnt (.close .backend) (by simp)
    have h2 := hcnt .recClose (by simp)
    exact ⟨h1.1, h2.1, fun hret => ⟨h1.2 hret, h2.2 hret⟩, hord⟩

/-! ## The relay can run to its end -/

theorem run_append (P : Programs) (a b : List Tid) (s : Relay) :
    run P (a ++ b) s = run P b (run P a s) := by
  induction a generalizing s with
  | nil => rfl
  | cons t ts ih => simp [run, ih]

theorem run_out_all (P : Programs) :
    ∀ (l : List Event) (s : Relay), s.out = some l →
      s.done + l.countP Event.isSend ≤ doneCap →
      run P (List.replicate l.length .out) s
        = { s with out := some [], done := s.done + l.countP Event.isSend,
                   trace := s.trace ++ l } := by
  intro l
  induction l with
  | nil =>
    intro s hs _
    cases s
    simp_all [run]
  | cons e es ih =>
    intro s hs hd
    simp only [List.length_cons, List.replicate_succ, run]
    by_cases he : e.isSend = true
    · have hd' : s.done < doneCap := by
        simp [List.countP_cons, he] at hd
        omega
      simp only [step, pumpStep, hs, he, hd', if_true, Option.getD_some]
      rw [ih _ rfl (by simp [List.countP_cons, he] at hd ⊢; omega)]
      simp [List.countP_cons, he]
      omega
    · simp only [step, pumpStep, hs, he, Option.getD_some]
      rw [ih _ rfl (by simp [List.countP_cons, he] at hd ⊢; omega)]
      simp [List.countP_cons, he]

theorem run_inp_all (P : Programs) :
    ∀ (l : List Event) (s : Relay), s.inp = some l →
      s.done + l.countP Event.isSend ≤ doneCap →
      run P (List.replicate l.length .inp) s
        = { s with inp := some [], done := s.done + l.countP Event.isSend,
                   trace := s.trace ++ l } := by
  intro l
  induction l with
  | nil =>
    intro s hs _
    cases s
    simp_all [run]
  | cons e es ih =>
    intro s hs hd
    simp only [List.length_cons, List.replicate_succ, run]
    by_cases he : e.isSend = true
    · have hd' : s.done < doneCap := by
        simp [List.countP_cons, he] at hd
        omega
      simp only [step, pumpStep, hs, he, hd', if_true, Option.getD_some]
      rw [ih _ rfl (by simp [List.countP_cons, he] at hd ⊢; omega)]
      simp [List.countP_cons, he]
      omega
    · simp only [step, pumpStep, hs, he, Option.getD_some]
      rw [ih _ rfl (by simp [List.countP_cons, he] at hd ⊢; omega)]
      simp [List.countP_cons, he]

theorem pipe_sends (src dst : Stream) (dir : GoString) (reads : List ReadResult)
    (h : ∃ r ∈ reads, r.err ≠ none) :
    (pipe src dst dir reads).countP Event.isSend = 1 := by
  induction reads with
  | nil => simp at h
  | cons r rs ih =>
    have h1 : (if r.data.length > 0 then
        [Event.write dst r.data, Event.record dir r.data] else []).countP Event.isSend = 0 := by
      split <;> simp [List.countP_cons, Event.isSend]
    simp only [pipe, List.countP_cons, List.countP_append, h1]
    cases he : r.err with
    | some x => simp [List.countP_cons, Event.isSend]
    | none =>
      have : ∃ r ∈ rs, r.err ≠ none := by
        obtain ⟨r', hr', hne⟩ := h
        rcases List.mem_cons.mp hr' with e | e
        · subst e
          exact absurd he hne
        · exact ⟨r', e, hne⟩
      simp [ih this, Event.isSend]

/-- A relay whose pumps each reach their send on `done` returns under the schedule
`pumpsThenHandler`. -/
theorem relay_can_return (P : Programs) (a b c : Event) (htd : P.teardown = [a, b, c])
    (ho : P.out.countP Event.isSend = 1) (hi : P.inp.countP Event.isSend = 1) :
    (run P (pumpsThenHandler P) Relay.init).returned P = true := by
  unfold pumpsThenHandler
  rw [run_append, run_append, run_append]
  have h0 : run P [.main, .main] Relay.init
      = { pc := 2, out := some P.out, inp := some P.inp, done := 0,
          trace := [.spawn (str "stdout"), .spawn (str "stdin")] } := by
    simp [run, step, mainStep, Relay.init]
  rw [h0, run_out_all P P.out _ rfl (by simp [ho, doneCap]),
    run_inp_all P P.inp _ rfl (by simp [ho, hi, doneCap])]
  simp [run, step, mainStep, ho, hi, htd, Relay.returned, List.replicate]

/-- When both read sequences of a session reach an error, the relay of handler.go
and the relay of server.go return under the schedule `pumpsThenHandler`. -/
theorem relay_returns_when_reads_end (w : World)
    (hb : ∃ r ∈ w.backendReads, r.err ≠ none) (hc : ∃ r ∈ w.channelReads, r.err ≠ none) :
    (run (handlerPrograms w) (pumpsThenHandler (handlerPrograms w)) Relay.init).returned
        (handlerPrograms w) = true ∧
    (run (Server.programs w.backendReads w.channelReads)
        (pumpsThenHandler (Server.programs w.backendReads w.channelReads)) Relay.init).returned
        (Server.programs w.backendReads w.channelReads) = true := by
  constructor
  · apply relay_can_return _ _ _ _ rfl
    · simpa [handlerPrograms, pumpStdout_eq_pipe] using pipe_sends _ _ _ _ hb
    · simpa [handlerPrograms, pumpStdin_eq_pipe] using pipe_sends _ _ _ _ hc
  · apply relay_can_return _ _ _ _ rfl
    · simpa [Server.programs] using pipe_sends _ _ _ _ hb
    · simpa [Server.programs] using pipe_sends _ _ _ _ hc

/-! ## Program order in the relay, and what a finished session has recorded -/

theorem outCall_facts {e : Event} (h : e.isOutCall = true) :
    e.isInCall = false ∧ e.isPumpCall (str "stdout") = true := by
  have hne : ¬ (str "stdout" = str "stdin") := by decide
  cases e <;> simp_all [Event.isOutCall, Event.isInCall, Event.isDirCall, Event.isPumpCall]

theorem inCall_facts {e : Event} (h : e.isInCall = true) :
    e.isOutCall = false ∧ e.isPumpCall (str "stdin") = true := by
  have hne : ¬ (str "stdin" = str "stdout") := by decide
  cases e <;> simp_all [Event.isOutCall, Event.isInCall, Event.isDirCall, Event.isPumpCall]

theorem handlerCall_facts {e : Event}
    (h : e.isTeardown = true ∨ e = .recv ∨ ∃ d, e = .spawn d) :
    e.isOutCall = false ∧ e.isInCall = false := by
  rcases h with h | h | ⟨d, h⟩
  · cases e <;> simp_all [Event.isTeardown, Event.isOutCall, Event.isInCall, Event.isDirCall]
  · subst h
    simp [Event.isOutCall, Event.isInCall, Event.isDirCall]
  · subst h
    simp [Event.isOutCall, Event.isInCall, Event.isDirCall]

theorem Emitted_skip {prog : List Event} {rest : Option (List Event)} {f : Event → Bool}
    {trace : List Event} {e : Event} (h : Emitted prog rest f trace) (he : f e = false) :
    Emitted prog rest f (trace ++ [e]) := by
  cases rest with
  | none => simpa [Emitted, List.filter_append, he] using h
  | some l => simpa [Emitted, List.filter_append, he] using h

theorem Emitted_next {prog : List Event} {es : List Event} {f : Event → Bool}
    {trace : List Event} {e : Event} (h : Emitted prog (some (e :: es)) f trace)
    (he : f e = true) : Emitted prog (some es) f (trace ++ [e]) := by
  simp only [Emitted] at h ⊢
  simp [List.filter_append, he, h]

theorem ProgramOrder_init (P : Programs) : ProgramOrder P Relay.init := by
  constructor <;> simp [Relay.init, Emitted]

theorem ProgramOrder_step {P : Programs} (hP : P.WF) (hD : P.Directed) {t : Tid}
    {s s' : Relay} (hI : Inv P s) (h : ProgramOrder P s) (hs : step P t s = some s') :
    ProgramOrder P s' := by
  cases t with
  | main =>
    simp only [step] at hs
    unfold mainStep at hs
    split at hs
    · rename_i hpc
      simp at hs
      subst hs
      have hon := hI.out_none hpc
      have ho := h.out_order
      have hf := handlerCall_facts (e := .spawn (str "stdout")) (Or.inr (Or.inr ⟨_, rfl⟩))
      constructor
      · rw [hon] at ho
        simp only [Emitted] at ho ⊢
        simp [List.filter_append, hf.1, ho]
      · exact Emitted_skip h.inp_order hf.2
    · rename_i hpc
      simp at hs
      subst hs
      have hin := hI.inp_none (by omega)
      have hi := h.inp_order
      have hf := handlerCall_facts (e := .spawn (str "stdin")) (Or.inr (Or.inr ⟨_, rfl⟩))
      constructor
      · exact Emitted_skip h.out_order hf.1
      · rw [hin] at hi
        simp only [Emitted] at hi ⊢
        simp [List.filter_append, hf.2, hi]
    · by_cases hd : s.done > 0
      · simp [hd] at hs
        subst hs
        have hf := handlerCall_facts (e := .recv) (Or.inr (Or.inl rfl))
        exact ⟨Emitted_skip h.out_order hf.1, Emitted_skip h.inp_order hf.2⟩
      · simp [hd] at hs
    · by_cases hd : s.done > 0
      · simp [hd] at hs
        subst hs
        have hf := handlerCall_facts (e := .recv) (Or.inr (Or.inl rfl))
        exact ⟨Emitted_skip h.out_order hf.1, Emitted_skip h.inp_order hf.2⟩
      · simp [hd] at hs
    · rename_i n hpc
      cases hg : P.teardown[n]? with
      | none => simp [hg] at hs
      | some e =>
        simp [hg] at hs
        subst hs
        have hf := handlerCall_facts (e := e)
          (Or.inl (hP.teardown_calls e (List.getElem?_mem hg)))
        exact ⟨Emitted_skip h.out_order hf.1, Emitted_skip h.inp_order hf.2⟩
  | out =>
    simp only [step] at hs
    cases hp : pumpStep s.out s.done with
    | none => simp [hp] at hs
    | some r =>
      obtain ⟨es, d, e⟩ := r
      simp [hp] at hs
      subst hs
      obtain ⟨hprog, _⟩ := pumpStep_some hp
      have ho := h.out_order
      rw [hprog] at ho
      have hmem : e ∈ P.out := by
        simp only [Emitted] at ho
        rw [← ho]
        simp
      have he := hD.out_dir e hmem
      exact ⟨Emitted_next ho he, Emitted_skip h.inp_order (outCall_facts he).1⟩
  | inp =>
    simp only [step] at hs
    cases hp : pumpStep s.inp s.done with
    | none => simp [hp] at hs
    | some r =>
      obtain ⟨es, d, e⟩ := r
      simp [hp] at hs
      subst hs
      obtain ⟨hprog, _⟩ := pumpStep_some hp
      have hi := h.inp_order
      rw [hprog] at hi
      have hmem : e ∈ P.inp := by
        simp only [Emitted] at hi
        rw [← hi]
        simp
      have he := hD.inp_dir e hmem
      exact ⟨Emitted_skip h.out_order (inCall_facts he).1, Emitted_next hi he⟩

theorem ProgramOrder_run {P : Programs} (hP : P.WF) (hD : P.Directed) (sched : List Tid) :
    ∀ s, Inv P s → ProgramOrder P s →
      Inv P (run P sched s) ∧ ProgramOrder P (run P sched s) := by
  induction sched with
  | nil => intro s hI h; exact ⟨hI, h⟩
  | cons t ts ih =>
    intro s hI h
    simp only [run]
    cases hs : step P t s with
    | none => simpa using ih s hI h
    | some s' => simpa using ih s' (Inv_step hP hI hs) (ProgramOrder_step hP hD hI h hs)

theorem pipe_dir (src dst : Stream) (dir : GoString) (reads : List ReadResult) :
    ∀ e ∈ pipe src dst dir reads, e.isDirCall src dst dir = true := by
  induction reads with
  | nil => simp [pipe, Event.isDirCall]
  | cons r rs ih =>
    intro e he
    simp only [pipe, List.mem_cons, List.mem_append] at he
    rcases he with he | he | he
    · subst he
      simp [Event.isDirCall]
    · split at he
      · simp at he
        rcases he with he | he <;> subst he <;> simp [Event.isDirCall]
      · simp at he
    · split at he
      · simp at he
        subst he
        simp [Event.isDirCall]
      · exact ih e he

theorem pipe_split (src dst : Stream) (dir : GoString) (reads : List ReadResult) :
    ∃ xs, (∀ e ∈ xs, e.isSend = false) ∧
      (pipe src dst dir reads = xs ∨ pipe src dst dir reads = xs ++ [.send dir]) := by
  induction reads with
  | nil => exact ⟨[.read src], by simp [Event.isSend], Or.inl rfl⟩
  | cons r rs ih =>
    have hchunk : ∀ e ∈ (if r.data.length > 0 then
        [Event.write dst r.data, Event.record dir r.data] else []), e.isSend = false := by
      intro e he
      split at he
      · simp at he
        rcases he with he | he <;> subst he <;> rfl
      · simp at he
    cases hr : r.err with
    | some x =>
      refine ⟨Event.read src :: (if r.data.length > 0 then
        [Event.write dst r.data, Event.record dir r.data] else []), ?_, Or.inr ?_⟩
      · intro e he
        rcases List.mem_cons.mp he with he | he
        · subst he
          rfl
        · exact hchunk e he
      · simp [pipe, hr]
    | none =>
      obtain ⟨xs, hxs, hsplit⟩ := ih
      refine ⟨Event.read src :: ((if r.data.length > 0 then
        [Event.write dst r.data, Event.record dir r.data] else []) ++ xs), ?_, ?_⟩
      · intro e he
        rcases List.mem_cons.mp he with he | he
        · subst he
          rfl
        · rcases List.mem_append.mp he with he | he
          · exact hchunk e he
          · exact hxs e he
      · rcases hsplit with h | h
        · exact Or.inl (by simp [pipe, hr, h])
        · exact Or.inr (by simp [pipe, hr, h])

theorem pipe_send_last (src dst : Stream) (dir : GoString) (reads : List ReadResult) :
    ∀ pre l, pipe src dst dir reads = pre ++ l → Event.send dir ∈ pre → l = [] := by
  intro pre l hpl hmem
  obtain ⟨xs, hxs, hsplit⟩ := pipe_split src dst dir reads
  have hnot : Event.send dir ∉ xs := fun h => by
    have := hxs _ h
    simp [Event.isSend] at this
  rcases hsplit with h | h
  · rw [h] at hpl
    exact absurd (by rw [hpl]; exact List.mem_append_left _ hmem) hnot
  · rcases List.eq_nil_or_concat l with hl | ⟨l', y, hl⟩
    · exact hl
    · subst hl
      rw [h, List.concat_eq_append, ← List.append_assoc] at hpl
      have := List.append_inj' hpl rfl
      exact absurd (by rw [this.1]; exact List.mem_append_left _ hmem) hnot

theorem handlerPrograms_Directed (w : World) : (handlerPrograms w).Directed := by
  constructor
  · simpa [handlerPrograms, pumpStdout_eq_pipe, Event.isOutCall] using pipe_dir _ _ _ _
  · simpa [handlerPrograms, pumpStdin_eq_pipe, Event.isInCall] using pipe_dir _ _ _ _
  · simpa [handlerPrograms, pumpStdout_eq_pipe, sendOut] using pipe_send_last _ _ _ _
  · simpa [handlerPrograms, pumpStdin_eq_pipe, sendIn] using pipe_send_last _ _ _ _

theorem recorded_filter (dir : GoString) (f : Event → Bool)
    (hf : ∀ b, f (.record dir b) = true) (t : List Event) :
    recorded dir (t.filter f) = recorded dir t := by
  induction t with
  | nil => rfl
  | cons e es ih =>
    by_cases he : f e = true
    · rw [List.filter_cons_of_pos he]
      cases e <;> simp [recorded, ih]
    · rw [List.filter_cons_of_neg he, ih]
      cases e <;> simp [recorded]
      rename_i d b
      by_cases hd : d = dir
      · subst hd
        exact absurd (hf b) he
      · simp [hd]

theorem delivered_filter (dst : Stream) (f : Event → Bool)
    (hf : ∀ b, f (.write dst b) = true) (t : List Event) :
    delivered dst (t.filter f) = delivered dst t := by
  induction t with
  | nil => rfl
  | cons e es ih =>
    by_cases he : f e = true
    · rw [List.filter_cons_of_pos he]
      cases e <;> simp [delivered, ih]
    · rw [List.filter_cons_of_neg he, ih]
      cases e <;> simp [delivered]
      rename_i d b
      by_cases hd : d = dst
      · subst hd
        exact absurd (hf b) he
      · simp [hd]

theorem observed_append_setup {t : List Event} (ht : ∀ e ∈ t, e.isRelayCall = false)
    (r : List Event) (dir : GoString) (dst : Stream) :
    recorded dir (t ++ r) = recorded dir r ∧ delivered dst (t ++ r) = delivered dst r := by
  induction t with
  | nil => exact ⟨rfl, rfl⟩
  | cons e es ih =>
    have he := ht e (by simp)
    obtain ⟨ih1, ih2⟩ := ih (fun x hx => ht x (by simp [hx]))
    cases e <;> simp_all [recorded, delivered, Event.isRelayCall]

/-- For a session of handler.go whose handler has returned: what was recorded under
`stdout` is what was written to the channel, namely the non-empty chunks read from
the backend through its first error, and what was recorded under `stdin` is what
was written to the backend, namely the non-empty chunks read from the channel
through its first error. -/
theorem session_recorded_eq_delivered (w : World) (deps : SSHDependencies) (sched : List Tid)
    (t : List Event) (b : Backend) (sid : GoString)
    (hrelay : handleSessionSetup w deps = .relay t b sid)
    (hret : (run (handlerPrograms w) sched Relay.init).returned (handlerPrograms w) = true) :
    recorded (str "stdout") (handleSession w deps sched)
      = delivered .channel (handleSession w deps sched) ∧
    delivered .channel (handleSession w deps sched)
      = nonEmptyChunks (throughFirstErr w.backendReads) ∧
    recorded (str "stdin") (handleSession w deps sched)
      = delivered .backend (handleSession w deps sched) ∧
    delivered .backend (handleSession w deps sched)
      = nonEmptyChunks (throughFirstErr w.channelReads) := by
  have hs : handleSession w deps sched
      = t ++ (run (handlerPrograms w) sched Relay.init).trace := by
    simp [handleSession, hrelay]
  have ht := setup_relay_trace hrelay
  obtain ⟨hI, hO⟩ := ProgramOrder_run (handlerPrograms_WF w) (handlerPrograms_Directed w) sched
    _ (Inv_init _) (ProgramOrder_init _)
  have hD := handlerPrograms_Directed w
  generalize run (handlerPrograms w) sched Relay.init = s at hs hI hO hret
  have hpc : s.pc = 7 := by
    simpa [Relay.returned, handlerPrograms] using hret
  have hr := hI.recvs
  have hc := hI.chan
  have hco := hI.out_cnt
  have hci := hI.inp_cnt
  rw [hpc] at hr
  simp at hr
  have hso : sendOut ∈ s.trace := count_pos_mem (by omega)
  have hsi : sendIn ∈ s.trace := count_pos_mem (by omega)
  have hout : s.trace.filter Event.isOutCall = (handlerPrograms w).out := by
    have ho := hO.out_order
    cases hq : s.out with
    | none =>
      have := hI.out_idle hq
      omega
    | some l =>
      rw [hq] at ho
      simp only [Emitted] at ho
      have hl := hD.out_last _ l ho.symm
        (List.mem_filter.mpr ⟨hso, by decide⟩)
      rw [hl] at ho
      simpa using ho
  have hinp : s.trace.filter Event.isInCall = (handlerPrograms w).inp := by
    have hi := hO.inp_order
    cases hq : s.inp with
    | none =>
      have := hI.inp_idle hq
      omega
    | some l =>
      rw [hq] at hi
      simp only [Emitted] at hi
      have hl := hD.inp_last _ l hi.symm
        (List.mem_filter.mpr ⟨hsi, by decide⟩)
      rw [hl] at hi
      simpa using hi
  have e1 : recorded (str "stdout") s.trace
      = nonEmptyChunks (throughFirstErr w.backendReads) := by
    rw [← recorded_filter (str "stdout") Event.isOutCall
      (by intro b; simp [Event.isOutCall, Event.isDirCall]) s.trace, hout]
    simp only [handlerPrograms, pumpStdout_eq_pipe]
    exact (pipe_recorded_delivered _ _ _ _).1
  have e2 : delivered .channel s.trace
      = nonEmptyChunks (throughFirstErr w.backendReads) := by
    rw [← delivered_filter .channel Event.isOutCall
      (by intro b; simp [Event.isOutCall, Event.isDirCall]) s.trace, hout]
    simp only [handlerPrograms, pumpStdout_eq_pipe]
    exact (pipe_recorded_delivered _ _ _ _).2
  have e3 : recorded (str "stdin") s.trace
      = nonEmptyChunks (throughFirstErr w.channelReads) := by
    rw [← recorded_filter (str "stdin") Event.isInCall
      (by intro b; simp [Event.isInCall, Event.isDirCall]) s.trace, hinp]
    simp only [handlerPrograms, pumpStdin_eq_pipe]
    exact (pipe_recorded_delivered _ _ _ _).1
  have e4 : delivered .backend s.trace
      = nonEmptyChunks (throughFirstErr w.channelReads) := by
    rw [← delivered_filter .backend Event.isInCall
      (by intro b; simp [Event.isInCall, Event.isDirCall]) s.trace, hinp]
    simp only [handlerPrograms, pumpStdin_eq_pipe]
    exact (pipe_recorded_delivered _ _ _ _).2
  rw [hs, (observed_append_setup ht s.trace (str "stdout") .channel).1,
    (observed_append_setup ht s.trace (str "stdout") .channel).2,
    (observed_append_setup ht s.trace (str "stdin") .backend).1,
    (observed_append_setup ht s.trace (str "stdin") .backend).2]
  exact ⟨e1.trans e2.symm, e2, e3.trans e4.symm, e4⟩

/-! ## The claims at the example sessions -/

/-- C8 at the identity `alice`, which has no separator. -/
theorem handleSession_parse_failure_witness :
    handleSession (exampleWorld (str "alice")) (noAgentDeps (some allowAll)) []
      = [.accept, .write .channel (parseUserErr ++ str "\n"), .close .channel] :=
  (handleSession_parse_failure (exampleWorld (str "alice")) (noAgentDeps (some allowAll)) []
    parseUserErr rfl (by decide)).1

/-- C3 at `alice|10.0.0.5:22` under a policy engine that denies the pair. -/
theorem handleSession_denied_witness :
    handleSession (exampleWorld (str "alice|10.0.0.5:22")) (noAgentDeps (some denyAll)) []
      = [.accept, .allows (str "alice") (str "10.0.0.5:22"),
          .write .channel (str "ACCESS DENIED\n"), .close .channel] :=
  (handleSession_denied (exampleWorld (str "alice|10.0.0.5:22")) (noAgentDeps (some denyAll)) []
    (str "alice") (str "10.0.0.5:22") denyAll rfl (by decide) rfl rfl).1

/-- C5 at `alice|127.0.0.1:9999` with no agent and a refused dial. -/
theorem handleSession_dial_failure_witness :
    delivered .channel
        (handleSession (exampleWorld (str "alice|127.0.0.1:9999")) (noAgentDeps none) [])
      = [str "dial tcp 127.0.0.1:9999: connect: connection refused"] ∧
    ∀ x ∈ handleSession (exampleWorld (str "alice|127.0.0.1:9999")) (noAgentDeps none) [],
      x.isRecorderCreate = false ∧ x.isPumpStart = false ∧ x.isPumpOnly = false :=
  (handleSession_dial_failure (exampleWorld (str "alice|127.0.0.1:9999")) (noAgentDeps none) []
    (str "alice") (str "127.0.0.1:9999")
    (str "dial tcp 127.0.0.1:9999: connect: connection refused") rfl (by decide)
    (fun r h => by simp [noAgentDeps] at h) (Or.inl rfl) (by decide)).2.2

/-- C9 at `alice|127.0.0.1:9999` with no policy engine. -/
theorem handleSession_no_policy_engine_witness :
    ∃ rest, handleSession (exampleWorld (str "alice|127.0.0.1:9999")) (noAgentDeps none) []
      = .accept :: .getAgent (str "127.0.0.1:9999") :: rest :=
  (handleSession_no_policy_engine (exampleWorld (str "alice|127.0.0.1:9999"))
    (noAgentDeps none) [] (str "alice") (str "127.0.0.1:9999") rfl (by decide) rfl).2.2.2

/-- C4 at `bob|internal-host:22` with an agent registered for `internal-host:22`. -/
theorem handleSession_backend_resolution_witness :
    (handleSessionSetup (exampleWorld (str "bob|internal-host:22")) agentDeps).backend
      = some (.agentConn 10 11) ∧
    ∀ x ∈ handleSession (exampleWorld (str "bob|internal-host:22")) agentDeps
        (pumpsThenHandler (handlerPrograms (exampleWorld (str "bob|internal-host:22")))),
      x.isDial = false :=
  (handleSession_backend_resolution (exampleWorld (str "bob|internal-host:22")) agentDeps
    (pumpsThenHandler (handlerPrograms (exampleWorld (str "bob|internal-host:22"))))
    (str "bob") (str "internal-host:22") rfl (by decide)
    (fun r h => by simp [agentDeps] at h; subst h; rfl)).1
    ⟨fun _ _ => .ok (10, 11)⟩ 10 11 (by simp [agentDeps]) rfl

/-- C7 at `bob|internal-host:22` over the agent stream, both pumps run to their end. -/
theorem handleSession_join_then_close_witness :
    (handleSession (exampleWorld (str "bob|internal-host:22")) agentDeps
        (pumpsThenHandler (handlerPrograms (exampleWorld (str "bob|internal-host:22"))))).count
        (.close .backend) = 1 ∧
    (handleSession (exampleWorld (str "bob|internal-host:22")) agentDeps
        (pumpsThenHandler (handlerPrograms (exampleWorld (str "bob|internal-host:22"))))).count
        .recClose = 1 :=
  (handleSession_join_then_close (exampleWorld (str "bob|internal-host:22")) agentDeps
    (pumpsThenHandler (handlerPrograms (exampleWorld (str "bob|internal-host:22"))))
    [.accept, .allows (str "bob") (str "internal-host:22"), .getAgent (str "internal-host:22"),
      .newSessionID, .createSession (str "session-0") (str "internal-host:22"),
      .newSessionID,
      .newSessionWriter (str "sessions") (str "session-1") (str "bob")
        (str "internal-host:22") (str "192.0.2.7:40000") (str "2024-05-01T10:00:00Z")]
    (.agentConn 10 11) (str "session-1") (by decide) [] []).1.2.2.2.1 (by decide)

/-- The whole run of the session `bob|internal-host:22` over the agent stream. -/
theorem handleSession_agent_session :
    handleSession (exampleWorld (str "bob|internal-host:22")) agentDeps
        (pumpsThenHandler (handlerPrograms (exampleWorld (str "bob|internal-host:22"))))
      = [.accept, .allows (str "bob") (str "internal-host:22"),
          .getAgent (str "internal-host:22"), .newSessionID,
          .createSession (str "session-0") (str "internal-host:22"), .newSessionID,
          .newSessionWriter (str "sessions") (str "session-1") (str "bob")
            (str "internal-host:22") (str "192.0.2.7:40000") (str "2024-05-01T10:00:00Z"),
          .spawn (str "stdout"), .spawn (str "stdin"),
          .read .backend, .write .channel (str "welcome\n"),
          .record (str "stdout") (str "welcome\n"),
          .read .backend, .write .channel (str "bye\n"), .record (str "stdout") (str "bye\n"),
          .send (str "stdout"),
          .read .channel, .write .backend (str "ls\n"), .record (str "stdin") (str "ls\n"),
          .read .channel, .send (str "stdin"),
          .recv, .recv, .close .backend, .recClose, .close .channel] := by
  decide

/-- The identity `a|b|c` is split at its first separator by `parseUser`, while
`strings.Split`, which server.go uses, gives three parts. -/
theorem parseUser_extra_separator :
    parseUser (str "a|b|c") = .ok (str "a", str "b|c") ∧
    Split (str "a|b|c") sepByte = [str "a", str "b", str "c"] := by
  decide

end SshProxy
